import Mathlib

/-
Verification of the resume-parser pipeline (src/resume_parser.py) against its
specification.  The development shallowly embeds, over `List Char` strings and a
JSON value type `Jv`:

  - the Mapper `parse_content` (lines 97-206): response cleanup
    (strip / replace of fenced code-block markers), JSON decoding, the debug
    artifact write, and both exception handlers;
  - the Renderer `create_formatted_docx` and its helpers (lines 273-412):
    name formatting, contact lines, the skill-matrix table, certifications,
    education, experience and projects sections;
  - the tail of `__main__` (lines 435-448): the `safe_name` computation from
    `parsed_data['name']` and the output-filename sanitizer.

Python strings are `List Char`; Python dicts from `json.loads` are association
lists with last-write-wins insertion; a Python exception escaping a modelled
function is `Option.none`.  Machine-level effects (file handles, the network
call that produces `response_text`, the docx XML) are abstracted: the Mapper
model starts from the accumulated `response_text`, and a Boolean `writeOk`
models whether the debug-artifact write succeeds.
-/

-- ==========================================================================
-- Python string primitives
-- ==========================================================================

/-- The backtick character (code 96), written via its code point. -/
def bt : Char := Char.ofNat 96

/-- Whitespace stripped by Python `str.strip()` (ASCII range): space, tab,
newline, carriage return, vertical tab, form feed. -/
def isPyWS (c : Char) : Bool :=
  c.toNat = 32 || c.toNat = 9 || c.toNat = 10 || c.toNat = 13 || c.toNat = 11 || c.toNat = 12

/-- Front half of `str.strip()`: drop leading whitespace. -/
def sf (s : List Char) : List Char := s.dropWhile isPyWS

/-- Back half of `str.strip()`: drop trailing whitespace. -/
def sb (s : List Char) : List Char := (s.reverse.dropWhile isPyWS).reverse

/-- Python `str.strip()`. -/
def pstrip (s : List Char) : List Char := sb (sf s)

/-- Fuel-driven worker for `str.replace(p, "")`:  scan left to right; at each
position, if the pattern `p` matches, delete it and continue after it
(non-overlapping, no rescan of already-emitted output), else keep the head
character.  The fuel only makes the recursion structural; `delOcc` always
supplies enough. -/
def delOccF (p : List Char) : Nat → List Char → List Char
  | _, [] => []
  | 0, l => l
  | n+1, c :: rest =>
    if p.isPrefixOf (c :: rest) then delOccF p n (rest.drop (p.length - 1))
    else c :: delOccF p n rest

/-- Python `s.replace(p, "")` for a non-empty pattern `p`. -/
def delOcc (p s : List Char) : List Char := delOccF p s.length s

/-- The fenced code-block opener removed first by `parse_content`
(the seven characters backtick, backtick, backtick, j, s, o, n). -/
def tickJson : List Char := [bt, bt, bt, 'j', 's', 'o', 'n']

/-- The bare fence of three backticks removed second by `parse_content`. -/
def ticks3 : List Char := [bt, bt, bt]

/-- Response cleanup of `parse_content` (lines 190-191):
`response_text.strip().replace("` ` `json", "").replace("` ` `", "").strip()`
(backticks spaced out here in the comment only). -/
def cleanup (response_text : List Char) : List Char :=
  pstrip (delOcc ticks3 (delOcc tickJson (pstrip response_text)))

-- ==========================================================================
-- JSON values and a model of json.loads
-- ==========================================================================

/-- JSON values as returned by `json.loads`: Python `None`, `bool`, numbers
(kept as their source token, which is exact for integers and syntactically
faithful for floats), `str`, `list` and `dict` (an association list built with
last-write-wins insertion, mirroring Python dict construction). -/
inductive Jv where
  | null
  | bool (b : Bool)
  | num (t : List Char)
  | str (s : List Char)
  | arr (xs : List Jv)
  | obj (kvs : List (List Char × Jv))

/-- JSON grammar whitespace (as accepted by `json.loads`). -/
def isJsonWS (c : Char) : Bool := c = ' ' || c = '\t' || c = '\n' || c = '\r'

/-- Skip JSON whitespace. -/
def skipWs (l : List Char) : List Char := l.dropWhile isJsonWS

/-- Value of one hexadecimal digit. -/
def hexVal (c : Char) : Option Nat :=
  if '0' ≤ c ∧ c ≤ '9' then some (c.toNat - '0'.toNat)
  else if 'a' ≤ c ∧ c ≤ 'f' then some (c.toNat - 'a'.toNat + 10)
  else if 'A' ≤ c ∧ c ≤ 'F' then some (c.toNat - 'A'.toNat + 10)
  else none

/-- Body of a JSON string, after the opening quote: returns the decoded
content and the remainder after the closing quote.  Escapes are decoded as in
the JSON grammar; unescaped control characters are rejected (strict mode of
`json.loads`); surrogate-pair recombination is not modelled (`Char.ofNat` is
applied to each `\uXXXX` directly, and no claim exercises surrogates). -/
def parseStrBody : List Char → Option (List Char × List Char)
  | [] => none
  | '"' :: rest => some ([], rest)
  | '\\' :: 'u' :: h1 :: h2 :: h3 :: h4 :: rest => do
    let d1 ← hexVal h1
    let d2 ← hexVal h2
    let d3 ← hexVal h3
    let d4 ← hexVal h4
    let (s, r) ← parseStrBody rest
    some (Char.ofNat (((d1 * 16 + d2) * 16 + d3) * 16 + d4) :: s, r)
  | '\\' :: e :: rest => do
    let c ← if e = '"' then some '"'
      else if e = '\\' then some '\\'
      else if e = '/' then some '/'
      else if e = 'b' then some (Char.ofNat 8)
      else if e = 'f' then some (Char.ofNat 12)
      else if e = 'n' then some '\n'
      else if e = 'r' then some '\r'
      else if e = 't' then some '\t'
      else none
    let (s, r) ← parseStrBody rest
    some (c :: s, r)
  | c :: rest =>
    if c.toNat < 32 then none
    else do
      let (s, r) ← parseStrBody rest
      some (c :: s, r)

/-- A JSON number token: optional minus, integer part without leading zeros,
optional fraction, optional exponent.  Returns the token and the remainder. -/
def parseNumTok (l : List Char) : Option (List Char × List Char) :=
  let (sg, l1) : List Char × List Char :=
    match l with
    | c :: r => if c = '-' then ([c], r) else ([], l)
    | [] => ([], l)
  match l1 with
  | [] => none
  | c :: r =>
    if ¬ c.isDigit then none
    else
      let (ip, rest1) : List Char × List Char :=
        if c = '0' then ([c], r)
        else (c :: r.takeWhile Char.isDigit, r.dropWhile Char.isDigit)
      let fracRes : Option (List Char × List Char) :=
        match rest1 with
        | '.' :: r2 =>
          let fd := r2.takeWhile Char.isDigit
          if fd.isEmpty then none else some ('.' :: fd, r2.dropWhile Char.isDigit)
        | _ => some ([], rest1)
      match fracRes with
      | none => none
      | some (fp, rest2) =>
        let expRes : Option (List Char × List Char) :=
          match rest2 with
          | e :: r3 =>
            if e = 'e' ∨ e = 'E' then
              let (es, r4) : List Char × List Char :=
                match r3 with
                | s :: r5 => if s = '+' ∨ s = '-' then ([s], r5) else ([], r3)
                | [] => ([], r3)
              let ed := r4.takeWhile Char.isDigit
              if ed.isEmpty then none else some (e :: es ++ ed, r4.dropWhile Char.isDigit)
            else some ([], rest2)
          | [] => some ([], rest2)
        match expRes with
        | none => none
        | some (ep, rest3) => some (sg ++ ip ++ fp ++ ep, rest3)

/-- Insertion into a Python dict under construction: an existing key keeps its
position and gets the new value (so duplicate keys in the JSON text resolve to
the last value, as in `json.loads`). -/
def objInsert (kvs : List (List Char × Jv)) (k : List Char) (v : Jv) :
    List (List Char × Jv) :=
  match kvs with
  | [] => [(k, v)]
  | (k', v') :: rest => if k' = k then (k', v) :: rest else (k', v') :: objInsert rest k v

mutual

/-- Recursive-descent JSON value parser (models `json.loads`).  The fuel makes
the recursion structural; every recursive call follows the consumption of at
least one input character, so `jsonLoads`'s fuel of `length + 2` never runs
out on any input. -/
def parseVal : Nat → List Char → Option (Jv × List Char)
  | 0, _ => none
  | n+1, l =>
    match skipWs l with
    | [] => none
    | c :: rest =>
      if c = '"' then (parseStrBody rest).map (fun p => (Jv.str p.1, p.2))
      else if c = '{' then parseObjBody n (skipWs rest) []
      else if c = '[' then parseArrBody n (skipWs rest) []
      else if c = 't' then
        match rest with
        | 'r' :: 'u' :: 'e' :: r => some (Jv.bool true, r)
        | _ => none
      else if c = 'f' then
        match rest with
        | 'a' :: 'l' :: 's' :: 'e' :: r => some (Jv.bool false, r)
        | _ => none
      else if c = 'n' then
        match rest with
        | 'u' :: 'l' :: 'l' :: r => some (Jv.null, r)
        | _ => none
      else (parseNumTok (c :: rest)).map (fun p => (Jv.num p.1, p.2))

/-- Members of a JSON object, after `\x7b` (or after a comma) with whitespace
already skipped. -/
def parseObjBody : Nat → List Char → List (List Char × Jv) → Option (Jv × List Char)
  | 0, _, _ => none
  | n+1, l, acc =>
    match l with
    | '}' :: r => if acc.isEmpty then some (Jv.obj acc, r) else none
    | '"' :: rest => do
      let (k, r1) ← parseStrBody rest
      match skipWs r1 with
      | ':' :: r2 => do
        let (v, r3) ← parseVal n r2
        let acc2 := objInsert acc k v
        match skipWs r3 with
        | ',' :: r4 => parseObjBody n (skipWs r4) acc2
        | '}' :: r4 => some (Jv.obj acc2, r4)
        | _ => none
      | _ => none
    | _ => none

/-- Elements of a JSON array, after `[` (or after a comma) with whitespace
already skipped. -/
def parseArrBody : Nat → List Char → List Jv → Option (Jv × List Char)
  | 0, _, _ => none
  | n+1, l, acc =>
    match l with
    | ']' :: r => if acc.isEmpty then some (Jv.arr acc, r) else none
    | _ => do
      let (v, r1) ← parseVal n l
      let acc2 := acc ++ [v]
      match skipWs r1 with
      | ',' :: r2 => parseArrBody n (skipWs r2) acc2
      | ']' :: r2 => some (Jv.arr acc2, r2)
      | _ => none

end

/-- Model of `json.loads`: parse one value, allow trailing whitespace,
reject anything else; `none` models `json.JSONDecodeError`. -/
def jsonLoads (l : List Char) : Option Jv :=
  match parseVal (l.length + 2) l with
  | some (v, r) => if (skipWs r).isEmpty then some v else none
  | none => none

-- ==========================================================================
-- The Mapper: parse_content (lines 97-206)
-- ==========================================================================

/-- Models `parse_content` (src/resume_parser.py lines 177-206) from the point
where the streamed service response has been accumulated into `response_text`:
the response is cleaned up (lines 190-191) and decoded (line 193); on
`json.JSONDecodeError` the first handler returns `\x7b\x7d` (lines 200-203);
otherwise the parsed dict is written to the debug artifact
`parsed_resume.json` (lines 195-196) — `writeOk` says whether that write
succeeds, and on failure the `except Exception` handler (lines 204-206)
returns `\x7b\x7d`; on success the parsed dict is returned (line 198). -/
def parse_content (response_text : List Char) (writeOk : Bool) : Jv :=
  match jsonLoads (cleanup response_text) with
  | none => Jv.obj []
  | some j => if writeOk then j else Jv.obj []

/-- Dict lookup (`kvs[k]` / `kvs.get(k)`); keys are unique by construction of
`objInsert`, so first match is the Python lookup. -/
def dictGet (kvs : List (List Char × Jv)) (k : List Char) : Option Jv :=
  match kvs with
  | [] => none
  | (k', v) :: rest => if k' = k then some v else dictGet rest k

/-- Python `dict.get(k, dflt)`. -/
def dGetD (kvs : List (List Char × Jv)) (k : List Char) (dflt : Jv) : Jv :=
  match dictGet kvs k with
  | some v => v
  | none => dflt

/-- The field names declared by the `json_schema` prompt contract of
`parse_content` (lines 113-159). -/
def declaredFields : List (List Char) :=
  ["name".data, "email".data, "phone".data, "linkedin".data, "github".data,
   "skills".data, "skills_matrix".data, "certifications".data, "summary".data,
   "education".data, "experience".data, "projects".data, "awards".data]

/-- Modelled from the spec (the code builds no such value): the
"all-defaults empty record" of the data model in spec sections 3 and 8 — every
declared scalar field present with the empty string, every declared list field
present with the empty sequence.  Used only to compare the spec's notion of
the empty record against the `\x7b\x7d` the code actually returns. -/
def specAllDefaultsRecord : Jv :=
  Jv.obj
    [("name".data, Jv.str []), ("email".data, Jv.str []), ("phone".data, Jv.str []),
     ("linkedin".data, Jv.str []), ("github".data, Jv.str []),
     ("skills".data, Jv.arr []), ("skills_matrix".data, Jv.arr []),
     ("certifications".data, Jv.arr []), ("summary".data, Jv.str []),
     ("education".data, Jv.arr []), ("experience".data, Jv.arr []),
     ("projects".data, Jv.arr []), ("awards".data, Jv.arr [])]

-- ==========================================================================
-- Python value helpers used by the Renderer
-- ==========================================================================

/-- Sequence a fallible map over a list (the Option monad's `mapM`): the first
`none` (Python exception) aborts. -/
def mapMo {α β : Type} (f : α → Option β) : List α → Option (List β)
  | [] => some []
  | x :: xs =>
    match f x, mapMo f xs with
    | some y, some ys => some (y :: ys)
    | _, _ => none

/-- Python truthiness of a JSON value (`if v:`): `None` and `False` are falsy,
numbers are falsy exactly when they denote zero, strings/lists/dicts are falsy
exactly when empty. -/
def pyTruthy : Jv → Bool
  | Jv.null => false
  | Jv.bool b => b
  | Jv.num t =>
    let t1 : List Char :=
      match t with
      | c :: r => if c = '-' then r else t
      | [] => t
    let mant := t1.takeWhile (fun c => ¬ (c = 'e' ∨ c = 'E'))
    ¬ mant.all (fun c => c = '0' ∨ c = '.')
  | Jv.str s => ¬ s.isEmpty
  | Jv.arr xs => ¬ xs.isEmpty
  | Jv.obj kvs => ¬ kvs.isEmpty

/-- Python `str()` as used for table cells and f-string pieces, for scalar
JSON values: a `str` is itself, a number is its token (exact for integers),
`True`/`False`/`None` by their Python spellings.  For containers `str()`
would produce a Python repr; that is left unmodelled (`none`), and no claim
evaluates it. -/
def pyStrScalar : Jv → Option (List Char)
  | Jv.str s => some s
  | Jv.num t => some t
  | Jv.bool true => some "True".data
  | Jv.bool false => some "False".data
  | Jv.null => some "None".data
  | Jv.arr _ => none
  | Jv.obj _ => none

/-- Python iteration `for x in v`: lists yield their elements, strings yield
their characters as one-character strings, dicts yield their keys; other
values raise `TypeError` (`none`). -/
def pyIter : Jv → Option (List Jv)
  | Jv.arr xs => some xs
  | Jv.str s => some (s.map (fun c => Jv.str [c]))
  | Jv.obj kvs => some (kvs.map (fun kv => Jv.str kv.1))
  | _ => none

/-- Python slicing `v[:n]`: defined on lists and strings, `TypeError`
(`none`) otherwise. -/
def pySliceTake (n : Nat) : Jv → Option Jv
  | Jv.str s => some (Jv.str (s.take n))
  | Jv.arr xs => some (Jv.arr (xs.take n))
  | _ => none

/-- Python `str.split()` (no separator): split on whitespace runs, dropping
empty pieces.  The accumulator holds the current word reversed. -/
def splitWsAux : List Char → List Char → List (List Char)
  | [], acc => if acc.isEmpty then [] else [acc.reverse]
  | c :: rest, acc =>
    if isPyWS c then
      if acc.isEmpty then splitWsAux rest [] else acc.reverse :: splitWsAux rest []
    else splitWsAux rest (c :: acc)

/-- Python `str.split()`. -/
def splitWsPy (s : List Char) : List (List Char) := splitWsAux s []

/-- Python `str.capitalize()`: first character uppercased, the rest
lowercased (`Char.toUpper`/`Char.toLower` are ASCII, as are all inputs the
claims exercise). -/
def pyCapitalize (w : List Char) : List Char :=
  match w with
  | [] => []
  | c :: r => c.toUpper :: r.map Char.toLower

/-- Join words with single spaces (Python `" ".join`). -/
def joinSpace : List (List Char) → List Char
  | [] => []
  | [w] => w
  | w :: ws => w ++ ' ' :: joinSpace ws

/-- Python `string.capwords(s)`: split on whitespace, capitalize each word,
join with single spaces. -/
def capwords (s : List Char) : List Char :=
  joinSpace ((splitWsPy s).map pyCapitalize)

/-- Python `c.isalnum()` restricted to the regex class `[A-Za-z0-9]` used at
line 445. -/
def isAlnumAscii (c : Char) : Bool :=
  ('A' ≤ c ∧ c ≤ 'Z') || ('a' ≤ c ∧ c ≤ 'z') || ('0' ≤ c ∧ c ≤ '9')

/-- Worker for `re.sub(r'[^A-Za-z0-9]+', '_', s)`: the Boolean records whether
the scan is inside a non-alphanumeric run whose single `_` has already been
emitted. -/
def sanAux : Bool → List Char → List Char
  | _, [] => []
  | inRun, c :: rest =>
    if isAlnumAscii c then c :: sanAux false rest
    else if inRun then sanAux true rest
    else '_' :: sanAux true rest

/-- `re.sub(r'[^A-Za-z0-9]+', '_', s)` (line 445): every maximal run of
non-alphanumeric characters becomes a single underscore. -/
def subNonAlnum (s : List Char) : List Char := sanAux false s

/-- The `safe_name` of `__main__` (line 445):
`re.sub(r'[^A-Za-z0-9]+', '_', string.capwords(parsed_data['name']))`. -/
def safeName (name : List Char) : List Char := subNonAlnum (capwords name)

-- ==========================================================================
-- The Renderer: create_formatted_docx and helpers (lines 273-412)
-- ==========================================================================

/-- One data row of the skill-matrix table (lines 310-315). -/
structure SkillRow where
  area : List Char
  years : List Char
  lastUsed : List Char
  level : List Char
deriving DecidableEq

/-- The rendered skill-matrix table: the fixed header row with its shading
fill and font color, plus the data rows. -/
structure SkillTable where
  headers : List (List Char)
  headerFill : List Char
  headerFontColor : Nat × Nat × Nat
  rows : List SkillRow
deriving DecidableEq

/-- The header labels written at line 298. -/
def skillHeaders : List (List Char) :=
  ["Area".data, "Years".data, "Latest 3 Clients Used".data, "Level".data]

/-- The header shading fill of line 304. -/
def skillHeaderFill : List Char := "5A2A82".data

/-- One skill-matrix data row from one `skills_matrix` entry (lines 310-315):
`str(skill.get(...))` for the four columns; a non-dict entry raises
`AttributeError` on `.get` (`none`). -/
def entryRowKvs (kvs : List (List Char × Jv)) : Option SkillRow := do
  let a ← pyStrScalar (dGetD kvs "skills".data (Jv.str []))
  let y ← pyStrScalar (dGetD kvs "years_experience".data (Jv.str []))
  let lu ← pyStrScalar (dGetD kvs "last_used".data (Jv.str []))
  let lv ← pyStrScalar (dGetD kvs "proficiency".data (Jv.str []))
  some ⟨a, y, lu, lv⟩

/-- One skill-matrix data row from one `skills_matrix` entry. -/
def entryRow (e : Jv) : Option SkillRow :=
  match e with
  | Jv.obj kvs => entryRowKvs kvs
  | _ => none

/-- The rendered skill-matrix table: the fixed header row of lines 296-307
(labels, purple fill, white font) over the given data rows. -/
def mkSkillTable (rows : List SkillRow) : SkillTable :=
  ⟨skillHeaders, skillHeaderFill, (255, 255, 255), rows⟩

/-- Lines 275-285 of `_build_skill_matrix`: the effective `skills_matrix`
value — the record's own value, or, when that is falsy and `skills` is truthy,
the list synthesized from `parsed_data["skills"][:10]` with empty
years/last-used/proficiency fields.  `none` is a Python exception (slicing or
iterating an unsliceable `skills` value). -/
def skillMatrixSrc (kvs : List (List Char × Jv)) : Option Jv :=
  if ¬ pyTruthy (dGetD kvs "skills_matrix".data (Jv.arr []))
      ∧ pyTruthy (dGetD kvs "skills".data Jv.null) then
    match (pySliceTake 10 (dGetD kvs "skills".data Jv.null)).bind pyIter with
    | none => none
    | some els =>
      some (Jv.arr (els.map (fun sk =>
        Jv.obj [("skills".data, sk), ("years_experience".data, Jv.str []),
                ("last_used".data, Jv.str []), ("proficiency".data, Jv.str [])])))
  else some (dGetD kvs "skills_matrix".data (Jv.arr []))

/-- Models `_build_skill_matrix` (lines 273-315) on the record's key-value
pairs.  Outer `none` is a Python exception; `some none` is the early `return`
with no table added (line 288); `some (some t)` is the rendered table built
from the first ten entries (line 291). -/
def buildSkillMatrixKvs (kvs : List (List Char × Jv)) : Option (Option SkillTable) :=
  match skillMatrixSrc kvs with
  | none => none
  | some sm2 =>
    if ¬ pyTruthy sm2 then some none
    else
      match pySliceTake 10 sm2 with
      | none => none
      | some sm3 =>
        match pyIter sm3 with
        | none => none
        | some entries =>
          match mapMo entryRow entries with
          | none => none
          | some rows => some (some (mkSkillTable rows))

/-- `_build_skill_matrix` on the whole record (`parsed_data.get` raises on a
non-dict). -/
def buildSkillMatrix (pd : Jv) : Option (Option SkillTable) :=
  match pd with
  | Jv.obj kvs => buildSkillMatrixKvs kvs
  | _ => none

/-- The fallback used at line 338 when the record has no name. -/
def nameNotFound : List Char := "Name Not Found".data

/-- The candidate-name line of `create_formatted_docx` (lines 334-342):
`string.capwords(parsed_data.get("name", "Name Not Found").strip())`, rendered
centered and bold; a non-string name value raises on `.strip()` (`none`). -/
def formattedNameKvs (kvs : List (List Char × Jv)) : Option (List Char) :=
  match dGetD kvs "name".data (Jv.str nameNotFound) with
  | Jv.str s => some (capwords (pstrip s))
  | _ => none

/-- The candidate-name line on the whole record. -/
def formattedName (pd : Jv) : Option (List Char) :=
  match pd with
  | Jv.obj kvs => formattedNameKvs kvs
  | _ => none

/-- The centered contact lines (lines 347-356): phone, email, linkedin, each
rendered only if truthy; a truthy non-string raises in `add_run` (`none`). -/
def contactLines (kvs : List (List Char × Jv)) : Option (List (List Char)) :=
  let vals := [dGetD kvs "phone".data (Jv.str []), dGetD kvs "email".data (Jv.str []),
               dGetD kvs "linkedin".data (Jv.str [])]
  mapMo (fun v =>
    match v with
    | Jv.str s => some s
    | _ => none) (vals.filter pyTruthy)

/-- The Candidate Strengths section (lines 359-362): present only when the
summary is truthy. -/
def summarySec (kvs : List (List Char × Jv)) : Option (Option (List Char)) :=
  let v := dGetD kvs "summary".data Jv.null
  if pyTruthy v then
    match v with
    | Jv.str s => some (some s)
    | _ => none
  else some none

/-- One certification bullet (line 372): `"name - issuer"` from the entry. -/
def certLineKvs (kvs : List (List Char × Jv)) : Option (List Char) := do
  let n ← pyStrScalar (dGetD kvs "name".data (Jv.str []))
  let i ← pyStrScalar (dGetD kvs "issuer".data (Jv.str []))
  some (n ++ " - ".data ++ i)

/-- One certification bullet on the entry value. -/
def certLine (e : Jv) : Option (List Char) :=
  match e with
  | Jv.obj kvs => certLineKvs kvs
  | _ => none

/-- The Certifications section (lines 369-373): omitted when falsy. -/
def certSec (kvs : List (List Char × Jv)) : Option (Option (List (List Char))) :=
  let v := dGetD kvs "certifications".data Jv.null
  if pyTruthy v then
    match pyIter v with
    | none => none
    | some es =>
      match mapMo certLine es with
      | none => none
      | some ls => some (some ls)
  else some none

/-- One education bullet (line 379): `"degree in major - university"`. -/
def eduLineKvs (kvs : List (List Char × Jv)) : Option (List Char) := do
  let d ← pyStrScalar (dGetD kvs "degree".data (Jv.str []))
  let m ← pyStrScalar (dGetD kvs "major".data (Jv.str []))
  let u ← pyStrScalar (dGetD kvs "university".data (Jv.str []))
  some (d ++ " in ".data ++ m ++ " - ".data ++ u)

/-- One education bullet on the entry value. -/
def eduLine (e : Jv) : Option (List Char) :=
  match e with
  | Jv.obj kvs => eduLineKvs kvs
  | _ => none

/-- The Education section (lines 376-381): omitted when falsy. -/
def eduSec (kvs : List (List Char × Jv)) : Option (Option (List (List Char))) :=
  let v := dGetD kvs "education".data Jv.null
  if pyTruthy v then
    match pyIter v with
    | none => none
    | some es =>
      match mapMo eduLine es with
      | none => none
      | some ls => some (some ls)
  else some none

/-- One rendered experience entry: the bold header paragraph and its
description bullets. -/
structure ExpBlock where
  header : List Char
  headerBold : Bool
  bullets : List (List Char)
deriving DecidableEq

/-- One experience entry (lines 386-391): the header
`"job_title - company (start_date - end_date)"` built by the f-string at line
387 and rendered bold, then one `List Bullet` paragraph per element of
`exp.get("Description", [])`; `add_paragraph` requires each bullet to be a
string. -/
def expBlockKvs (kvs : List (List Char × Jv)) : Option ExpBlock := do
  let jt ← pyStrScalar (dGetD kvs "job_title".data (Jv.str []))
  let co ← pyStrScalar (dGetD kvs "company".data (Jv.str []))
  let sd ← pyStrScalar (dGetD kvs "start_date".data (Jv.str []))
  let ed ← pyStrScalar (dGetD kvs "end_date".data (Jv.str []))
  let ds ← pyIter (dGetD kvs "Description".data (Jv.arr []))
  let bs ← mapMo (fun d =>
    match d with
    | Jv.str s => some s
    | _ => none) ds
  some ⟨jt ++ " - ".data ++ co ++ " (".data ++ sd ++ " - ".data ++ ed ++ ")".data,
        true, bs⟩

/-- One experience entry on the entry value. -/
def expBlock (e : Jv) : Option ExpBlock :=
  match e with
  | Jv.obj kvs => expBlockKvs kvs
  | _ => none

/-- The Professional Experience section (lines 384-391): omitted when the
`experience` value is falsy; otherwise one `ExpBlock` per entry, in order. -/
def experienceSec (kvs : List (List Char × Jv)) : Option (Option (List ExpBlock)) :=
  let v := dGetD kvs "experience".data Jv.null
  if pyTruthy v then
    match pyIter v with
    | none => none
    | some es =>
      match mapMo expBlock es with
      | none => none
      | some bs => some (some bs)
  else some none

/-- One rendered project entry: bold header, content bullets, optional
Technologies and Environment lines. -/
structure ProjBlock where
  header : List Char
  headerBold : Bool
  bullets : List (List Char)
  tech : Option (List Char)
  env : Option (List Char)
deriving DecidableEq

/-- One project entry (lines 396-405). -/
def projBlockKvs (kvs : List (List Char × Jv)) : Option ProjBlock := do
  let pn ← pyStrScalar (dGetD kvs "project_name".data (Jv.str []))
  let cl ← pyStrScalar (dGetD kvs "client".data (Jv.str []))
  let dr ← pyStrScalar (dGetD kvs "date_range".data (Jv.str []))
  let cs ← pyIter (dGetD kvs "content".data (Jv.arr []))
  let bs ← mapMo (fun d =>
    match d with
    | Jv.str s => some s
    | _ => none) cs
  let tv := dGetD kvs "technologies".data Jv.null
  let te ← if pyTruthy tv then (pyStrScalar tv).map (fun s => some ("Technologies: ".data ++ s))
    else some none
  let ev := dGetD kvs "environment".data Jv.null
  let en ← if pyTruthy ev then (pyStrScalar ev).map (fun s => some ("Environment: ".data ++ s))
    else some none
  some ⟨pn ++ " - ".data ++ cl ++ " (".data ++ dr ++ ")".data, true, bs, te, en⟩

/-- One project entry on the entry value. -/
def projBlock (e : Jv) : Option ProjBlock :=
  match e with
  | Jv.obj kvs => projBlockKvs kvs
  | _ => none

/-- The Projects section (lines 394-405): omitted when falsy. -/
def projectsSec (kvs : List (List Char × Jv)) : Option (Option (List ProjBlock)) :=
  let v := dGetD kvs "projects".data Jv.null
  if pyTruthy v then
    match pyIter v with
    | none => none
    | some es =>
      match mapMo projBlock es with
      | none => none
      | some bs => some (some bs)
  else some none

/-- The rendered document, in the fixed section order of
`create_formatted_docx`: logo block, centered name, centered contact lines,
Candidate Strengths, Skill Matrix (heading always rendered; table only when
`some`), Certifications, Education, Professional Experience, Projects.  The
fixed footer text and all font constants are not data-dependent and are
carried by the definitions above. -/
structure RDoc where
  hasLogo : Bool
  name : List Char
  contacts : List (List Char)
  strengths : Option (List Char)
  skillTable : Option SkillTable
  certifications : Option (List (List Char))
  education : Option (List (List Char))
  experience : Option (List ExpBlock)
  projects : Option (List ProjBlock)
deriving DecidableEq

/-- Models `create_formatted_docx` (lines 317-412).  `logoExists` models
`os.path.exists(logo_path)`; `none` models a Python exception escaping the
renderer; saving the document (lines 408-412) is an I/O step outside the
record-to-document function and is not modelled. -/
def createDocxKvs (kvs : List (List Char × Jv)) (logoExists : Bool) : Option RDoc := do
  let nm ← formattedNameKvs kvs
  let cl ← contactLines kvs
  let su ← summarySec kvs
  let sk ← buildSkillMatrixKvs kvs
  let ce ← certSec kvs
  let ed ← eduSec kvs
  let ex ← experienceSec kvs
  let pj ← projectsSec kvs
  some ⟨logoExists, nm, cl, su, sk, ce, ed, ex, pj⟩

/-- `create_formatted_docx` on the whole record (a non-dict raises on the
first `.get`). -/
def create_formatted_docx (pd : Jv) (logoExists : Bool) : Option RDoc :=
  match pd with
  | Jv.obj kvs => createDocxKvs kvs logoExists
  | _ => none

/-- Models the tail of `__main__` (lines 435-448): after
`parsed_data = parse_content(...)`, the script computes
`safe_name = re.sub(r'[^A-Za-z0-9]+', '_', string.capwords(parsed_data['name']))`
before calling `create_formatted_docx`.  `parsed_data['name']` raises
`KeyError` when the key is absent (in particular on the empty record `\x7b\x7d`),
and `string.capwords` raises on a non-string value; either uncaught exception
aborts the script before rendering (`none`).  On success the `safe_name` used
for the output filename `safe_name + "_resume.docx"` is returned. -/
def mainTail (parsed_data : Jv) : Option (List Char) :=
  match parsed_data with
  | Jv.obj kvs =>
    match dictGet kvs "name".data with
    | some (Jv.str s) => some (safeName s)
    | some _ => none
    | none => none
  | _ => none

-- ==========================================================================
-- String-rewriting lemmas: the response cleanup absorbs a fenced code block
-- ==========================================================================

theorem delOccF_nil (p : List Char) (k : Nat) : delOccF p k [] = [] := by
  cases k <;> rfl

theorem delOccF_congr (p : List Char) :
    ∀ (n m : Nat) (l : List Char), l.length ≤ n → l.length ≤ m →
      delOccF p n l = delOccF p m l := by
  intro n
  induction n with
  | zero =>
    intro m l hn _
    have : l = [] := List.eq_nil_of_length_eq_zero (Nat.le_zero.mp hn)
    subst this
    simp [delOccF_nil]
  | succ n' ih =>
    intro m l hn hm
    cases l with
    | nil => simp [delOccF_nil]
    | cons c rest =>
      cases m with
      | zero => simp at hm
      | succ m' =>
        have hn' : rest.length ≤ n' := by
          simp only [List.length_cons] at hn
          omega
        have hm' : rest.length ≤ m' := by
          simp only [List.length_cons] at hm
          omega
        have hd : (rest.drop (p.length - 1)).length ≤ rest.length := by
          simp [List.length_drop]
        show (if p.isPrefixOf (c :: rest) then delOccF p n' (rest.drop (p.length - 1))
              else c :: delOccF p n' rest)
           = (if p.isPrefixOf (c :: rest) then delOccF p m' (rest.drop (p.length - 1))
              else c :: delOccF p m' rest)
        by_cases h : p.isPrefixOf (c :: rest) = true
        · simp only [h, if_true]
          exact ih m' _ (by omega) (by omega)
        · rw [if_neg h, if_neg h, ih m' rest hn' hm']

theorem delOcc_nil (p : List Char) : delOcc p [] = [] := rfl

theorem delOcc_cons (p : List Char) (c : Char) (rest : List Char) :
    delOcc p (c :: rest)
      = if p.isPrefixOf (c :: rest) then delOcc p (rest.drop (p.length - 1))
        else c :: delOcc p rest := by
  show (if p.isPrefixOf (c :: rest) then delOccF p rest.length (rest.drop (p.length - 1))
        else c :: delOccF p rest.length rest)
     = _
  by_cases h : p.isPrefixOf (c :: rest) = true
  · simp only [h, if_true]
    exact delOccF_congr p _ _ _ (by simp [List.length_drop]) (le_refl _)
  · simp only [h, if_false]
    rfl

theorem preOf_iff (p l : List Char) : p.isPrefixOf l = true ↔ ∃ t, p ++ t = l := by
  induction p generalizing l with
  | nil => simp [List.isPrefixOf]
  | cons a p' ih =>
    cases l with
    | nil => simp [List.isPrefixOf]
    | cons b l' =>
      simp only [List.isPrefixOf, Bool.and_eq_true, beq_iff_eq, ih, List.cons_append,
        List.cons.injEq]
      constructor
      · rintro ⟨rfl, t, rfl⟩
        exact ⟨t, rfl, rfl⟩
      · rintro ⟨t, h1, h2⟩
        exact ⟨h1, t, h2⟩

theorem preOf_app (p r : List Char) : p.isPrefixOf (p ++ r) = true :=
  (preOf_iff p (p ++ r)).mpr ⟨r, rfl⟩

theorem preOf_ext {p u : List Char} (z : List Char) (h : p.isPrefixOf u = true) :
    p.isPrefixOf (u ++ z) = true := by
  rcases (preOf_iff p u).mp h with ⟨t, rfl⟩
  exact (preOf_iff _ _).mpr ⟨t ++ z, by rw [List.append_assoc]⟩

theorem preOf_of_app_long {p u z : List Char} (hlen : p.length ≤ u.length)
    (h : p.isPrefixOf (u ++ z) = true) : p.isPrefixOf u = true := by
  rcases (preOf_iff p (u ++ z)).mp h with ⟨t, ht⟩
  have htake : (p ++ t).take p.length = (u ++ z).take p.length := by rw [ht]
  rw [List.take_left] at htake
  rw [List.take_append_eq_append_take, Nat.sub_eq_zero_of_le hlen, List.take_zero,
    List.append_nil] at htake
  refine (preOf_iff p u).mpr ⟨u.drop p.length, ?_⟩
  nth_rewrite 1 [htake]
  exact List.take_append_drop _ _

theorem preOf_of_app_short {p u z : List Char} (hlen : u.length < p.length)
    (h : p.isPrefixOf (u ++ z) = true) :
    p = u ++ z.take (p.length - u.length) := by
  rcases (preOf_iff p (u ++ z)).mp h with ⟨t, ht⟩
  have htake : (p ++ t).take p.length = (u ++ z).take p.length := by rw [ht]
  rw [List.take_left] at htake
  rw [List.take_append_eq_append_take,
    List.take_of_length_le (Nat.le_of_lt hlen)] at htake
  exact htake

theorem preOf_of_app_disjoint {p z : List Char} (hd : ∀ c ∈ z, c ∉ p) :
    ∀ u, p.isPrefixOf (u ++ z) = true → p.isPrefixOf u = true := by
  intro u h
  rcases Nat.lt_or_ge u.length p.length with hlen | hlen
  · exfalso
    have heq := preOf_of_app_short hlen h
    cases hz : z with
    | nil =>
      subst hz
      simp at heq
      subst heq
      omega
    | cons c z' =>
      obtain ⟨k', hk'⟩ : ∃ k', p.length - u.length = k' + 1 :=
        ⟨p.length - u.length - 1, by omega⟩
      have hcp : c ∈ p := by
        rw [heq, hz, hk']
        simp [List.take]
      exact hd c (by rw [hz]; exact List.mem_cons_self _ _) hcp
  · exact preOf_of_app_long hlen h

theorem preOf_tickJson {u : List Char}
    (h : tickJson.isPrefixOf (u ++ ticks3) = true) : tickJson.isPrefixOf u = true := by
  rcases Nat.lt_or_ge u.length tickJson.length with hlen | hlen
  · exfalso
    have heq := preOf_of_app_short hlen h
    have htake : ∀ k, 1 ≤ k → (ticks3.take k).getLast? = some bt := by
      intro k hk
      match k with
      | 1 => rfl
      | 2 => rfl
      | (n+3) =>
        rw [List.take_of_length_le (by show (3:Nat) ≤ n + 3; omega)]
        rfl
    have h2 := congrArg List.getLast? heq
    rw [List.getLast?_append, htake _ (by omega)] at h2
    simp [Option.or] at h2
    exact absurd h2 (by decide)
  · exact preOf_of_app_long hlen h

theorem delOcc_cancel (p r : List Char) (hp : p ≠ []) : delOcc p (p ++ r) = delOcc p r := by
  cases p with
  | nil => exact absurd rfl hp
  | cons a p' =>
    rw [show (a :: p') ++ r = a :: (p' ++ r) from rfl, delOcc_cons,
      if_pos (show (a :: p').isPrefixOf (a :: (p' ++ r)) = true from preOf_app _ _)]
    congr 1
    simp only [List.length_cons, Nat.add_sub_cancel]
    exact List.drop_left _ _

theorem delOcc_of_disjoint {p : List Char} (hp : p ≠ []) :
    ∀ z, (∀ c ∈ z, c ∉ p) → delOcc p z = z := by
  intro z
  induction z with
  | nil => intro _; rfl
  | cons c z' ih =>
    intro hd
    rw [delOcc_cons, if_neg ?hne, ih (fun d hdz => hd d (List.mem_cons_of_mem _ hdz))]
    case hne =>
      intro hpre
      rcases (preOf_iff _ _).mp hpre with ⟨t, ht⟩
      cases p with
      | nil => exact hp rfl
      | cons a p' =>
        injection ht with h1 _
        exact hd c (List.mem_cons_self _ _) (h1 ▸ List.mem_cons_self _ _)

theorem delOcc_append_of_inert {p z : List Char} (hz : delOcc p z = z)
    (hin : ∀ u, p.isPrefixOf (u ++ z) = true → p.isPrefixOf u = true) :
    ∀ x, delOcc p (x ++ z) = delOcc p x ++ z := by
  have key : ∀ n x, x.length ≤ n → delOcc p (x ++ z) = delOcc p x ++ z := by
    intro n
    induction n with
    | zero =>
      intro x hx
      have : x = [] := List.eq_nil_of_length_eq_zero (Nat.le_zero.mp hx)
      subst this
      simpa using hz
    | succ n' ih =>
      intro x hx
      cases x with
      | nil => simpa using hz
      | cons c rest =>
        have hrest : rest.length ≤ n' := by
          simp only [List.length_cons] at hx
          omega
        by_cases h : p.isPrefixOf (c :: rest) = true
        · have h2 : p.isPrefixOf (c :: (rest ++ z)) = true := preOf_ext z h
          rw [show (c :: rest) ++ z = c :: (rest ++ z) from rfl, delOcc_cons, if_pos h2,
            delOcc_cons, if_pos h]
          have hlen : p.length - 1 ≤ rest.length := by
            rcases (preOf_iff _ _).mp h with ⟨t, ht⟩
            have := congrArg List.length ht
            simp only [List.length_append, List.length_cons] at this
            omega
          rw [List.drop_append_eq_append_drop, Nat.sub_eq_zero_of_le hlen,
            List.drop_zero]
          exact ih _ (by simp only [List.length_drop]; omega)
        · have h2 : ¬ p.isPrefixOf (c :: (rest ++ z)) = true := fun hh => h (hin _ hh)
          rw [show (c :: rest) ++ z = c :: (rest ++ z) from rfl, delOcc_cons, if_neg h2,
            delOcc_cons, if_neg h, ih rest hrest]
          rfl
  intro x
  exact key x.length x (le_refl _)

theorem delOcc_append_repl (k : Nat) (ch : Char) (hk : 1 ≤ k) :
    ∀ u, delOcc (List.replicate k ch) (u ++ List.replicate k ch)
           = delOcc (List.replicate k ch) u := by
  set p := List.replicate k ch with hpdef
  have hplen : p.length = k := by simp [hpdef]
  have hpne : p ≠ [] := List.ne_nil_of_length_pos (by omega)
  have hnil : delOcc p ([] ++ p) = delOcc p [] := by
    have h0 := delOcc_cancel p [] hpne
    rw [List.append_nil] at h0
    simpa using h0
  have key : ∀ n u, u.length ≤ n → delOcc p (u ++ p) = delOcc p u := by
    intro n
    induction n with
    | zero =>
      intro u hu
      have : u = [] := List.eq_nil_of_length_eq_zero (Nat.le_zero.mp hu)
      subst this
      exact hnil
    | succ n' ih =>
      intro u hu
      cases u with
      | nil => exact hnil
      | cons c rest =>
        have hrest : rest.length ≤ n' := by
          simp only [List.length_cons] at hu
          omega
        by_cases h : p.isPrefixOf (c :: rest) = true
        · have h2 : p.isPrefixOf (c :: (rest ++ p)) = true := preOf_ext p h
          rw [show (c :: rest) ++ p = c :: (rest ++ p) from rfl, delOcc_cons, if_pos h2,
            delOcc_cons, if_pos h]
          have hlen : p.length - 1 ≤ rest.length := by
            rcases (preOf_iff _ _).mp h with ⟨t, ht⟩
            have := congrArg List.length ht
            simp only [List.length_append, List.length_cons] at this
            omega
          rw [List.drop_append_eq_append_drop, Nat.sub_eq_zero_of_le hlen,
            List.drop_zero]
          exact ih _ (by simp only [List.length_drop]; omega)
        · by_cases h2 : p.isPrefixOf (c :: (rest ++ p)) = true
          · have hlen : (c :: rest).length < p.length := by
              by_contra hge
              exact h (preOf_of_app_long (by omega)
                (show p.isPrefixOf ((c :: rest) ++ p) = true from h2))
            have hu2 : c :: rest = List.replicate (c :: rest).length ch := by
              have heq := preOf_of_app_short hlen
                (show p.isPrefixOf ((c :: rest) ++ p) = true from h2)
              have htk := congrArg (List.take (c :: rest).length) heq
              rw [List.take_left] at htk
              rw [hpdef, List.take_replicate,
                Nat.min_eq_left (by omega : (c :: rest).length ≤ k)] at htk
              exact htk.symm
            have hc : c = ch := by
              have h3 := hu2
              rw [List.length_cons, List.replicate_succ] at h3
              injection h3
            have hrest2 : rest = List.replicate rest.length ch := by
              have h3 := hu2
              rw [List.length_cons, List.replicate_succ] at h3
              injection h3 with _ h4
            rw [show (c :: rest) ++ p = c :: (rest ++ p) from rfl, delOcc_cons, if_pos h2]
            congr 1
            rw [hrest2, hpdef, ← List.replicate_add, List.drop_replicate]
            nth_rewrite 2 [hrest2]
            rw [hc, ← List.replicate_succ]
            congr 1
            simp only [List.length_replicate]
            omega
          · rw [show (c :: rest) ++ p = c :: (rest ++ p) from rfl, delOcc_cons, if_neg h2,
              delOcc_cons, if_neg h, ih rest hrest]
  intro u
  exact key u.length u (le_refl _)

theorem delOcc_ws_front {p : List Char} (hp : p ≠ []) :
    ∀ w x, (∀ c ∈ w, c ∉ p) → delOcc p (w ++ x) = w ++ delOcc p x := by
  intro w
  induction w with
  | nil => intro x _; rfl
  | cons c w' ih =>
    intro x hd
    rw [show (c :: w') ++ x = c :: (w' ++ x) from rfl, delOcc_cons, if_neg ?hne,
      ih x (fun d hdw => hd d (List.mem_cons_of_mem _ hdw))]
    · rfl
    case hne =>
      intro hpre
      rcases (preOf_iff _ _).mp hpre with ⟨t, ht⟩
      cases p with
      | nil => exact hp rfl
      | cons a p' =>
        injection ht with h1 _
        exact hd c (List.mem_cons_self _ _) (h1 ▸ List.mem_cons_self _ _)

theorem mem_of_mem_takeWhile {q : Char → Bool} {c : Char} :
    ∀ l : List Char, c ∈ l.takeWhile q → q c = true := by
  intro l
  induction l with
  | nil => intro h; simp [List.takeWhile] at h
  | cons a l' ih =>
    intro h
    rw [List.takeWhile] at h
    by_cases ha : q a = true
    · rw [ha] at h
      simp at h
      rcases h with h | h
      · exact h ▸ ha
      · exact ih h
    · rw [Bool.not_eq_true] at ha
      rw [ha] at h
      simp at h

theorem sf_ws_front : ∀ w x, (∀ c ∈ w, isPyWS c = true) → sf (w ++ x) = sf x := by
  intro w
  induction w with
  | nil => intro x _; rfl
  | cons c w' ih =>
    intro x hw
    show List.dropWhile isPyWS (c :: (w' ++ x)) = sf x
    rw [List.dropWhile_cons_of_pos (hw c (List.mem_cons_self _ _))]
    exact ih x (fun d hd => hw d (List.mem_cons_of_mem _ hd))

theorem sb_ws_back (x w : List Char) (hw : ∀ c ∈ w, isPyWS c = true) :
    sb (x ++ w) = sb x := by
  show ((x ++ w).reverse.dropWhile isPyWS).reverse = sb x
  rw [List.reverse_append]
  show (sf (w.reverse ++ x.reverse)).reverse = sb x
  rw [sf_ws_front w.reverse x.reverse (fun c hc => hw c (List.mem_reverse.mp hc))]
  rfl

theorem sf_all_ws : ∀ y, (∀ c ∈ y, isPyWS c = true) → sf y = [] := by
  intro y hy
  have := sf_ws_front y [] hy
  rw [List.append_nil] at this
  exact this

theorem all_ws_of_sf_nil : ∀ y, sf y = [] → ∀ c ∈ y, isPyWS c = true := by
  intro y
  induction y with
  | nil => intro _ c hc; simp at hc
  | cons a y' ih =>
    intro h c hc
    by_cases ha : isPyWS a = true
    · have h' : sf y' = [] := by
        have : sf (a :: y') = sf y' := List.dropWhile_cons_of_pos ha
        rw [← this]
        exact h
      rcases List.mem_cons.mp hc with rfl | hc'
      · exact ha
      · exact ih h' c hc'
    · exfalso
      have : sf (a :: y') = a :: y' :=
        List.dropWhile_cons_of_neg (by simpa using ha)
      rw [h] at this
      exact List.cons_ne_nil _ _ this.symm

theorem sf_app_of_ne : ∀ y w, sf y ≠ [] → sf (y ++ w) = sf y ++ w := by
  intro y
  induction y with
  | nil => intro w h; exact absurd rfl h
  | cons c y' ih =>
    intro w h
    by_cases hc : isPyWS c = true
    · have h1 : sf (c :: y') = sf y' := List.dropWhile_cons_of_pos hc
      show List.dropWhile isPyWS (c :: (y' ++ w)) = sf (c :: y') ++ w
      rw [List.dropWhile_cons_of_pos hc, h1]
      exact ih w (by rw [← h1]; exact h)
    · have hc' : ¬ isPyWS c = true := hc
      show List.dropWhile isPyWS (c :: (y' ++ w)) = sf (c :: y') ++ w
      rw [List.dropWhile_cons_of_neg (by simpa using hc'),
        show sf (c :: y') = c :: y' from List.dropWhile_cons_of_neg (by simpa using hc')]
      rfl

theorem pstrip_ws_front (w y : List Char) (hw : ∀ c ∈ w, isPyWS c = true) :
    pstrip (w ++ y) = pstrip y := by
  show sb (sf (w ++ y)) = sb (sf y)
  rw [sf_ws_front w y hw]

theorem pstrip_ws_back (y w : List Char) (hw : ∀ c ∈ w, isPyWS c = true) :
    pstrip (y ++ w) = pstrip y := by
  show sb (sf (y ++ w)) = sb (sf y)
  by_cases hy : sf y = []
  · rw [hy]
    have : ∀ c ∈ y ++ w, isPyWS c = true := by
      intro c hc
      rcases List.mem_append.mp hc with hc' | hc'
      · exact all_ws_of_sf_nil y hy c hc'
      · exact hw c hc'
    rw [sf_all_ws _ this]
  · rw [sf_app_of_ne y w hy, sb_ws_back _ _ hw]

theorem disj_of_ws {p : List Char} (hnw : ∀ c ∈ p, isPyWS c = false)
    {w : List Char} (hw : ∀ c ∈ w, isPyWS c = true) : ∀ c ∈ w, c ∉ p := by
  intro c hc hcp
  have h1 := hnw c hcp
  rw [hw c hc] at h1
  exact Bool.noConfusion h1

theorem tickJson_not_ws : ∀ c ∈ tickJson, isPyWS c = false := by decide

theorem ticks3_not_ws : ∀ c ∈ ticks3, isPyWS c = false := by decide

theorem pstrip_delOcc_pstrip (s : List Char) :
    pstrip (delOcc ticks3 (delOcc tickJson (pstrip s)))
      = pstrip (delOcc ticks3 (delOcc tickJson s)) := by
  have hw1 : ∀ c ∈ s.takeWhile isPyWS, isPyWS c = true :=
    fun c hc => mem_of_mem_takeWhile _ hc
  have hs : s = s.takeWhile isPyWS ++ s.dropWhile isPyWS :=
    (List.takeWhile_append_dropWhile _ _).symm
  set s1 := s.dropWhile isPyWS with hs1def
  set w2 := ((s1.reverse).takeWhile isPyWS).reverse with hw2def
  set core := ((s1.reverse).dropWhile isPyWS).reverse with hcoredef
  have hw2 : ∀ c ∈ w2, isPyWS c = true := fun c hc =>
    mem_of_mem_takeWhile _ (List.mem_reverse.mp hc)
  have hs1 : s1 = core ++ w2 := by
    have h0 : s1.reverse = s1.reverse.takeWhile isPyWS ++ s1.reverse.dropWhile isPyWS :=
      (List.takeWhile_append_dropWhile _ _).symm
    calc s1 = s1.reverse.reverse := (List.reverse_reverse _).symm
    _ = (s1.reverse.takeWhile isPyWS ++ s1.reverse.dropWhile isPyWS).reverse := by
        rw [← h0]
    _ = core ++ w2 := by rw [List.reverse_append]
  have hcore : pstrip s = core := rfl
  have hJ1 : delOcc tickJson s1 = delOcc tickJson core ++ w2 := by
    rw [hs1]
    exact delOcc_append_of_inert
      (delOcc_of_disjoint (by decide) w2 (disj_of_ws tickJson_not_ws hw2))
      (fun u hu => preOf_of_app_disjoint (disj_of_ws tickJson_not_ws hw2) u hu)
      core
  have hJ : delOcc tickJson s
      = s.takeWhile isPyWS ++ (delOcc tickJson core ++ w2) := by
    calc delOcc tickJson s
        = delOcc tickJson (s.takeWhile isPyWS ++ s1) := by rw [← hs]
    _ = s.takeWhile isPyWS ++ delOcc tickJson s1 :=
        delOcc_ws_front (by decide) _ _ (disj_of_ws tickJson_not_ws hw1)
    _ = s.takeWhile isPyWS ++ (delOcc tickJson core ++ w2) := by rw [hJ1]
  have hT : delOcc ticks3 (delOcc tickJson s)
      = s.takeWhile isPyWS ++ (delOcc ticks3 (delOcc tickJson core) ++ w2) := by
    calc delOcc ticks3 (delOcc tickJson s)
        = delOcc ticks3 (s.takeWhile isPyWS ++ (delOcc tickJson core ++ w2)) := by
          rw [hJ]
    _ = s.takeWhile isPyWS ++ delOcc ticks3 (delOcc tickJson core ++ w2) :=
        delOcc_ws_front (by decide) _ _ (disj_of_ws ticks3_not_ws hw1)
    _ = s.takeWhile isPyWS ++ (delOcc ticks3 (delOcc tickJson core) ++ w2) := by
        rw [delOcc_append_of_inert
          (delOcc_of_disjoint (by decide) w2 (disj_of_ws ticks3_not_ws hw2))
          (fun u hu => preOf_of_app_disjoint (disj_of_ws ticks3_not_ws hw2) u hu)
          (delOcc tickJson core)]
  rw [hcore, hT, pstrip_ws_front _ _ hw1, pstrip_ws_back _ _ hw2]

theorem sb_app_nonws (l : List Char) (c : Char) (hc : isPyWS c = false) :
    sb (l ++ [c]) = l ++ [c] := by
  show ((l ++ [c]).reverse.dropWhile isPyWS).reverse = _
  rw [List.reverse_append]
  show (List.dropWhile isPyWS (c :: l.reverse)).reverse = _
  rw [List.dropWhile_cons_of_neg (by simp [hc])]
  simp

theorem pstrip_wrapped_eq (s : List Char) :
    pstrip (tickJson ++ s ++ ticks3) = tickJson ++ s ++ ticks3 := by
  have hsf : sf (tickJson ++ s ++ ticks3) = tickJson ++ s ++ ticks3 := by
    show List.dropWhile isPyWS (bt :: ([bt, bt, 'j', 's', 'o', 'n'] ++ s ++ ticks3)) = _
    rw [List.dropWhile_cons_of_neg (by decide)]
    rfl
  have hshape : tickJson ++ s ++ ticks3 = (tickJson ++ s ++ [bt, bt]) ++ [bt] := by
    rw [show ticks3 = [bt, bt] ++ [bt] from rfl, ← List.append_assoc]
  have hsb : sb (tickJson ++ s ++ ticks3) = tickJson ++ s ++ ticks3 := by
    rw [hshape]
    exact sb_app_nonws _ _ (by decide)
  show sb (sf _) = _
  rw [hsf, hsb]

theorem cleanup_wrapped (s : List Char) :
    cleanup (tickJson ++ s ++ ticks3) = cleanup s := by
  have hd1 : delOcc tickJson (tickJson ++ s ++ ticks3) = delOcc tickJson (s ++ ticks3) := by
    rw [List.append_assoc]
    exact delOcc_cancel _ _ (by decide)
  have hd2 : delOcc tickJson (s ++ ticks3) = delOcc tickJson s ++ ticks3 :=
    delOcc_append_of_inert (by decide) (fun u hu => preOf_tickJson hu) s
  have hd3 : delOcc ticks3 (delOcc tickJson s ++ ticks3)
      = delOcc ticks3 (delOcc tickJson s) :=
    delOcc_append_repl 3 bt (by omega) (delOcc tickJson s)
  show pstrip (delOcc ticks3 (delOcc tickJson (pstrip (tickJson ++ s ++ ticks3))))
      = cleanup s
  rw [pstrip_wrapped_eq, hd1, hd2, hd3]
  exact (pstrip_delOcc_pstrip s).symm

-- ==========================================================================
-- Character-case and word-splitting lemmas (for the name formatter)
-- ==========================================================================

theorem toNat_ofNat_lt (n : Nat) (h : n < 55296) : (Char.ofNat n).toNat = n := by
  rw [Char.ofNat, dif_pos (Or.inl h)]
  rfl

theorem toUpper_eq (c : Char) :
    c.toUpper = if 97 ≤ c.toNat ∧ c.toNat ≤ 122 then Char.ofNat (c.toNat - 32) else c := rfl

theorem toLower_eq (c : Char) :
    c.toLower = if 65 ≤ c.toNat ∧ c.toNat ≤ 90 then Char.ofNat (c.toNat + 32) else c := rfl

theorem toUpper_toNat (c : Char) :
    c.toUpper.toNat = if 97 ≤ c.toNat ∧ c.toNat ≤ 122 then c.toNat - 32 else c.toNat := by
  rw [toUpper_eq]
  by_cases h : 97 ≤ c.toNat ∧ c.toNat ≤ 122
  · rw [if_pos h, if_pos h]
    exact toNat_ofNat_lt _ (by omega)
  · rw [if_neg h, if_neg h]

theorem toLower_toNat (c : Char) :
    c.toLower.toNat = if 65 ≤ c.toNat ∧ c.toNat ≤ 90 then c.toNat + 32 else c.toNat := by
  rw [toLower_eq]
  by_cases h : 65 ≤ c.toNat ∧ c.toNat ≤ 90
  · rw [if_pos h, if_pos h]
    exact toNat_ofNat_lt _ (by omega)
  · rw [if_neg h, if_neg h]

theorem char_toNat_inj {c d : Char} (h : c.toNat = d.toNat) : c = d :=
  Char.ext (UInt32.ext h)

theorem toUpper_toUpper (c : Char) : c.toUpper.toUpper = c.toUpper := by
  apply char_toNat_inj
  simp only [toUpper_toNat]
  split_ifs <;> omega

theorem toLower_toUpper (c : Char) : c.toLower.toUpper = c.toUpper := by
  apply char_toNat_inj
  simp only [toUpper_toNat, toLower_toNat]
  split_ifs <;> omega

theorem toUpper_toLower (c : Char) : c.toUpper.toLower = c.toLower := by
  apply char_toNat_inj
  simp only [toUpper_toNat, toLower_toNat]
  split_ifs <;> omega

theorem toLower_toLower (c : Char) : c.toLower.toLower = c.toLower := by
  apply char_toNat_inj
  simp only [toLower_toNat]
  split_ifs <;> omega

theorem isPyWS_toUpper (c : Char) : isPyWS c.toUpper = isPyWS c := by
  simp only [isPyWS, toUpper_toNat]
  split_ifs with h
  · have h1 : ∀ m : Nat, 97 ≤ m → m ≤ 122 →
        ((decide (m - 32 = 32) || decide (m - 32 = 9) || decide (m - 32 = 10) ||
          decide (m - 32 = 13) || decide (m - 32 = 11) || decide (m - 32 = 12))
        = (decide (m = 32) || decide (m = 9) || decide (m = 10) ||
          decide (m = 13) || decide (m = 11) || decide (m = 12))) := by
      intro m hm1 hm2
      have e1 : decide (m - 32 = 32) = false := by
        simp only [decide_eq_false_iff_not]
        omega
      have e2 : decide (m - 32 = 9) = false := by
        simp only [decide_eq_false_iff_not]
        omega
      have e3 : decide (m - 32 = 10) = false := by
        simp only [decide_eq_false_iff_not]
        omega
      have e4 : decide (m - 32 = 13) = false := by
        simp only [decide_eq_false_iff_not]
        omega
      have e5 : decide (m - 32 = 11) = false := by
        simp only [decide_eq_false_iff_not]
        omega
      have e6 : decide (m - 32 = 12) = false := by
        simp only [decide_eq_false_iff_not]
        omega
      have f1 : decide (m = 32) = false := by
        simp only [decide_eq_false_iff_not]
        omega
      have f2 : decide (m = 9) = false := by
        simp only [decide_eq_false_iff_not]
        omega
      have f3 : decide (m = 10) = false := by
        simp only [decide_eq_false_iff_not]
        omega
      have f4 : decide (m = 13) = false := by
        simp only [decide_eq_false_iff_not]
        omega
      have f5 : decide (m = 11) = false := by
        simp only [decide_eq_false_iff_not]
        omega
      have f6 : decide (m = 12) = false := by
        simp only [decide_eq_false_iff_not]
        omega
      rw [e1, e2, e3, e4, e5, e6, f1, f2, f3, f4, f5, f6]
    exact h1 c.toNat h.1 h.2
  · rfl

theorem isPyWS_toLower (c : Char) : isPyWS c.toLower = isPyWS c := by
  simp only [isPyWS, toLower_toNat]
  split_ifs with h
  · have h1 : ∀ m : Nat, 65 ≤ m → m ≤ 90 →
        ((decide (m + 32 = 32) || decide (m + 32 = 9) || decide (m + 32 = 10) ||
          decide (m + 32 = 13) || decide (m + 32 = 11) || decide (m + 32 = 12))
        = (decide (m = 32) || decide (m = 9) || decide (m = 10) ||
          decide (m = 13) || decide (m = 11) || decide (m = 12))) := by
      intro m hm1 hm2
      have e1 : decide (m + 32 = 32) = false := by
        simp only [decide_eq_false_iff_not]
        omega
      have e2 : decide (m + 32 = 9) = false := by
        simp only [decide_eq_false_iff_not]
        omega
      have e3 : decide (m + 32 = 10) = false := by
        simp only [decide_eq_false_iff_not]
        omega
      have e4 : decide (m + 32 = 13) = false := by
        simp only [decide_eq_false_iff_not]
        omega
      have e5 : decide (m + 32 = 11) = false := by
        simp only [decide_eq_false_iff_not]
        omega
      have e6 : decide (m + 32 = 12) = false := by
        simp only [decide_eq_false_iff_not]
        omega
      have f1 : decide (m = 32) = false := by
        simp only [decide_eq_false_iff_not]
        omega
      have f2 : decide (m = 9) = false := by
        simp only [decide_eq_false_iff_not]
        omega
      have f3 : decide (m = 10) = false := by
        simp only [decide_eq_false_iff_not]
        omega
      have f4 : decide (m = 13) = false := by
        simp only [decide_eq_false_iff_not]
        omega
      have f5 : decide (m = 11) = false := by
        simp only [decide_eq_false_iff_not]
        omega
      have f6 : decide (m = 12) = false := by
        simp only [decide_eq_false_iff_not]
        omega
      rw [e1, e2, e3, e4, e5, e6, f1, f2, f3, f4, f5, f6]
    exact h1 c.toNat h.1 h.2
  · rfl

theorem splitWsAux_map (f : Char → Char) (hf : ∀ c, isPyWS (f c) = isPyWS c) :
    ∀ (s acc : List Char),
      splitWsAux (s.map f) (acc.map f) = (splitWsAux s acc).map (List.map f) := by
  intro s
  induction s with
  | nil =>
    intro acc
    show (if (acc.map f).isEmpty then [] else [(acc.map f).reverse])
        = (if acc.isEmpty then [] else [acc.reverse]).map (List.map f)
    by_cases h : acc.isEmpty
    · rw [if_pos h, if_pos (by simp_all), List.map_nil]
    · rw [if_neg h, if_neg (by simp_all)]
      simp [List.map_reverse]
  | cons c s' ih =>
    intro acc
    show splitWsAux (f c :: s'.map f) (acc.map f) = _
    rw [splitWsAux, splitWsAux, hf c]
    by_cases h : isPyWS c = true
    · rw [if_pos h, if_pos h]
      by_cases h2 : acc.isEmpty
      · rw [if_pos (by simp_all), if_pos h2]
        have := ih []
        simpa using this
      · rw [if_neg (by simp_all), if_neg h2]
        have := ih []
        simp only [List.map_nil] at this
        rw [this]
        simp [List.map_reverse]
    · rw [if_neg h, if_neg h]
      have := ih (c :: acc)
      simpa using this

theorem splitWs_map (f : Char → Char) (hf : ∀ c, isPyWS (f c) = isPyWS c) (s : List Char) :
    splitWsPy (s.map f) = (splitWsPy s).map (List.map f) := by
  have := splitWsAux_map f hf s []
  simpa [splitWsPy] using this

theorem pyCapitalize_map_toUpper (w : List Char) :
    pyCapitalize (w.map Char.toUpper) = pyCapitalize w := by
  cases w with
  | nil => rfl
  | cons c r =>
    show (c.toUpper).toUpper :: (r.map Char.toUpper).map Char.toLower
        = c.toUpper :: r.map Char.toLower
    rw [toUpper_toUpper, List.map_map]
    congr 1
    exact List.map_congr_left (fun a _ => toUpper_toLower a)

theorem pyCapitalize_map_toLower (w : List Char) :
    pyCapitalize (w.map Char.toLower) = pyCapitalize w := by
  cases w with
  | nil => rfl
  | cons c r =>
    show (c.toLower).toUpper :: (r.map Char.toLower).map Char.toLower
        = c.toUpper :: r.map Char.toLower
    rw [toLower_toUpper, List.map_map]
    congr 1
    exact List.map_congr_left (fun a _ => toLower_toLower a)

theorem capwords_map_toUpper (s : List Char) :
    capwords (s.map Char.toUpper) = capwords s := by
  unfold capwords
  rw [splitWs_map Char.toUpper isPyWS_toUpper, List.map_map]
  congr 1
  exact List.map_congr_left (fun w _ => pyCapitalize_map_toUpper w)

theorem capwords_map_toLower (s : List Char) :
    capwords (s.map Char.toLower) = capwords s := by
  unfold capwords
  rw [splitWs_map Char.toLower isPyWS_toLower, List.map_map]
  congr 1
  exact List.map_congr_left (fun w _ => pyCapitalize_map_toLower w)

theorem splitWsAux_words :
    ∀ (s acc : List Char), (∀ c ∈ acc, isPyWS c = false) →
      ∀ w ∈ splitWsAux s acc, w ≠ [] ∧ ∀ c ∈ w, isPyWS c = false := by
  intro s
  induction s with
  | nil =>
    intro acc hacc w hw
    show _
    by_cases h : acc.isEmpty
    · rw [show splitWsAux [] acc = if acc.isEmpty then [] else [acc.reverse] from rfl,
        if_pos h] at hw
      simp at hw
    · rw [show splitWsAux [] acc = if acc.isEmpty then [] else [acc.reverse] from rfl,
        if_neg h] at hw
      simp at hw
      subst hw
      refine ⟨by simpa using h, ?_⟩
      intro c hc
      exact hacc c (List.mem_reverse.mp hc)
  | cons c s' ih =>
    intro acc hacc w hw
    rw [splitWsAux] at hw
    by_cases h : isPyWS c = true
    · rw [if_pos h] at hw
      by_cases h2 : acc.isEmpty
      · rw [if_pos h2] at hw
        exact ih [] (by simp) w hw
      · rw [if_neg h2] at hw
        rcases List.mem_cons.mp hw with rfl | hw'
        · refine ⟨by simpa using h2, ?_⟩
          intro d hd
          exact hacc d (List.mem_reverse.mp hd)
        · exact ih [] (by simp) w hw'
    · rw [if_neg h] at hw
      refine ih (c :: acc) ?_ w hw
      intro d hd
      rcases List.mem_cons.mp hd with rfl | hd'
      · simpa using h
      · exact hacc d hd'

theorem splitWsAux_word_app (w : List Char) (hw : ∀ c ∈ w, isPyWS c = false) :
    ∀ (l acc : List Char), splitWsAux (w ++ l) acc = splitWsAux l (w.reverse ++ acc) := by
  induction w with
  | nil => intro l acc; rfl
  | cons c w' ih =>
    intro l acc
    show splitWsAux (c :: (w' ++ l)) acc = _
    rw [splitWsAux, if_neg (by simp [hw c (List.mem_cons_self _ _)]),
      ih (fun d hd => hw d (List.mem_cons_of_mem _ hd)) l (c :: acc)]
    congr 1
    simp

theorem splitWs_join :
    ∀ ws : List (List Char),
      (∀ w ∈ ws, w ≠ [] ∧ ∀ c ∈ w, isPyWS c = false) →
      splitWsPy (joinSpace ws) = ws := by
  intro ws
  induction ws with
  | nil => intro _; rfl
  | cons w ws' ih =>
    intro h
    rcases h w (List.mem_cons_self _ _) with ⟨hne, hnw⟩
    cases ws' with
    | nil =>
      show splitWsAux (joinSpace [w]) [] = [w]
      show splitWsAux w [] = [w]
      have := splitWsAux_word_app w hnw [] []
      rw [List.append_nil] at this
      rw [this]
      show (if (w.reverse ++ []).isEmpty then [] else [(w.reverse ++ []).reverse]) = [w]
      rw [if_neg (by simpa using hne)]
      simp
    | cons w2 ws'' =>
      show splitWsAux (joinSpace (w :: w2 :: ws'')) [] = w :: w2 :: ws''
      show splitWsAux (w ++ ' ' :: joinSpace (w2 :: ws'')) [] = w :: w2 :: ws''
      rw [splitWsAux_word_app w hnw _ [], List.append_nil, splitWsAux,
        if_pos (by decide), if_neg (by simpa using hne)]
      show w.reverse.reverse :: splitWsPy (joinSpace (w2 :: ws'')) = w :: w2 :: ws''
      rw [ih (fun u hu => h u (List.mem_cons_of_mem _ hu))]
      simp

theorem splitWs_capwords (s : List Char) :
    splitWsPy (capwords s) = (splitWsPy s).map pyCapitalize := by
  unfold capwords
  apply splitWs_join
  intro w hw
  rcases List.mem_map.mp hw with ⟨w0, hw0, rfl⟩
  rcases splitWsAux_words s [] (by simp) w0 hw0 with ⟨hne, hnw⟩
  constructor
  · cases w0 with
    | nil => exact absurd rfl hne
    | cons c r => simp [pyCapitalize]
  · cases w0 with
    | nil => exact absurd rfl hne
    | cons c r =>
      intro d hd
      rcases List.mem_cons.mp hd with rfl | hd'
      · rw [isPyWS_toUpper]
        exact hnw c (List.mem_cons_self _ _)
      · rcases List.mem_map.mp hd' with ⟨e, he, rfl⟩
        rw [isPyWS_toLower]
        exact hnw e (List.mem_cons_of_mem _ he)

theorem sanAux_all : ∀ (s : List Char) (b : Bool),
    (sanAux b s).all (fun c => isAlnumAscii c || c = '_') = true := by
  intro s
  induction s with
  | nil => intro b; cases b <;> rfl
  | cons c rest ih =>
    intro b
    rw [sanAux]
    by_cases h : isAlnumAscii c = true
    · rw [if_pos h]
      simp only [List.all_cons, h, Bool.true_or, Bool.true_and]
      exact ih false
    · rw [if_neg h]
      cases b with
      | true => exact ih true
      | false =>
        show (('_' :: sanAux true rest).all fun c => isAlnumAscii c || c = '_') = true
        simp only [List.all_cons]
        rw [ih true]
        rfl

theorem sanAux_head_alnum : ∀ (s : List Char) (c : Char),
    (sanAux true s).head? = some c → isAlnumAscii c = true := by
  intro s
  induction s with
  | nil => intro c h; simp [sanAux] at h
  | cons a rest ih =>
    intro c h
    rw [sanAux] at h
    by_cases ha : isAlnumAscii a = true
    · rw [if_pos ha] at h
      simp at h
      exact h ▸ ha
    · rw [if_neg ha] at h
      exact ih c h

theorem sanAux_chain : ∀ (s : List Char) (b : Bool),
    List.Chain' (fun x y => ¬(x = '_' ∧ y = '_')) (sanAux b s) := by
  intro s
  induction s with
  | nil => intro b; cases b <;> exact List.chain'_nil
  | cons c rest ih =>
    intro b
    rw [sanAux]
    by_cases h : isAlnumAscii c = true
    · rw [if_pos h]
      rw [List.chain'_cons']
      refine ⟨?_, ih false⟩
      intro y _
      intro hxy
      rw [hxy.1] at h
      exact absurd h (by decide)
    · rw [if_neg h]
      cases b with
      | true => exact ih true
      | false =>
        show List.Chain' _ ('_' :: sanAux true rest)
        rw [List.chain'_cons']
        refine ⟨?_, ih true⟩
        intro y hy
        intro hxy
        have := sanAux_head_alnum rest y hy
        rw [hxy.2] at this
        exact absurd this (by decide)

theorem sanAux_filter : ∀ (s : List Char) (b : Bool),
    (sanAux b s).filter isAlnumAscii = s.filter isAlnumAscii := by
  intro s
  induction s with
  | nil => intro b; cases b <;> rfl
  | cons c rest ih =>
    intro b
    rw [sanAux]
    by_cases h : isAlnumAscii c = true
    · rw [if_pos h, List.filter_cons_of_pos h, List.filter_cons_of_pos h, ih false]
    · rw [if_neg h]
      cases b with
      | true =>
        rw [show (if true = true then sanAux true rest else '_' :: sanAux true rest)
            = sanAux true rest from rfl, ih true,
          List.filter_cons_of_neg (by simpa using h)]
      | false =>
        rw [show (if false = true then sanAux true rest else '_' :: sanAux true rest)
            = '_' :: sanAux true rest from rfl,
          List.filter_cons_of_neg (by decide), ih true,
          List.filter_cons_of_neg (by simpa using h)]

-- ==========================================================================
-- Renderer lemmas
-- ==========================================================================

/-- A successful `mapMo` preserves the length of the list. -/
theorem mapMo_length {α β : Type} (f : α → Option β) :
    ∀ (xs : List α) (ys : List β), mapMo f xs = some ys → ys.length = xs.length := by
  intro xs
  induction xs with
  | nil =>
    intro ys h
    rw [mapMo] at h
    injection h with h
    subst h
    rfl
  | cons x xs' ih =>
    intro ys h
    rw [mapMo] at h
    rcases hx : f x with _ | y <;> rw [hx] at h
    · exact absurd h (by simp)
    · rcases hxs : mapMo f xs' with _ | ys' <;> rw [hxs] at h
      · exact absurd h (by simp)
      · injection h with h
        subst h
        simp [ih ys' hxs]

/-- Extracting the strings from a list of string values succeeds and returns
the strings. -/
theorem mapMo_str_elems :
    ∀ ds : List (List Char),
      mapMo (fun d =>
        match d with
        | Jv.str s => some s
        | _ => none) (ds.map Jv.str) = some ds := by
  intro ds
  induction ds with
  | nil => rfl
  | cons d ds' ih =>
    rw [List.map_cons, mapMo, ih]

/-- A record without a `name` key renders the fallback candidate name. -/
theorem formattedName_no_name (kvs : List (List Char × Jv))
    (h : dictGet kvs "name".data = none) :
    formattedName (Jv.obj kvs) = some nameNotFound := by
  show (match dGetD kvs "name".data (Jv.str nameNotFound) with
    | Jv.str s => some (capwords (pstrip s))
    | _ => none) = some nameNotFound
  rw [dGetD, h]
  rfl

/-- Rows built from entries synthesized out of a `skills` list of strings:
the skill name in the first column, the other three columns empty. -/
theorem mapMo_entryRow_synth :
    ∀ names : List (List Char),
      mapMo entryRow ((names.map Jv.str).map (fun sk =>
        Jv.obj [("skills".data, sk), ("years_experience".data, Jv.str []),
                ("last_used".data, Jv.str []), ("proficiency".data, Jv.str [])]))
      = some (names.map (fun a => ⟨a, [], [], []⟩)) := by
  intro names
  induction names with
  | nil => rfl
  | cons a ns ih =>
    rw [List.map_cons, List.map_cons, mapMo, ih]
    rfl

/-- Taking ten elements of a non-empty list is non-empty. -/
theorem take10_ne_nil {α : Type} {l : List α} (h : l ≠ []) : l.take 10 ≠ [] := by
  cases l with
  | nil => exact absurd rfl h
  | cons a l' => simp

/-- A truthy `skills_matrix` list renders its first ten entries as the table
rows, in order. -/
theorem skillMatrix_direct_rows (kvs : List (List Char × Jv)) (m : List Jv) (rows : List SkillRow)
    (hm : dGetD kvs "skills_matrix".data (Jv.arr []) = Jv.arr m) (hne : m ≠ [])
    (hrows : mapMo entryRow (m.take 10) = some rows) :
    buildSkillMatrix (Jv.obj kvs)
      = some (some (mkSkillTable rows)) := by
  have htr : pyTruthy (Jv.arr m) = true := by
    cases m with
    | nil => exact absurd rfl hne
    | cons a l => rfl
  have hsrc : skillMatrixSrc kvs = some (Jv.arr m) := by
    unfold skillMatrixSrc
    rw [hm, if_neg (by simp [htr])]
  show buildSkillMatrixKvs kvs = _
  unfold buildSkillMatrixKvs
  rw [hsrc]
  show (if ¬ pyTruthy (Jv.arr m) = true then some none
    else
      match pySliceTake 10 (Jv.arr m) with
      | none => none
      | some sm3 =>
        match pyIter sm3 with
        | none => none
        | some entries =>
          match mapMo entryRow entries with
          | none => none
          | some rows =>
            some (some (mkSkillTable rows))) = _
  rw [if_neg (by simp [htr])]
  show (match mapMo entryRow (m.take 10) with
        | none => none
        | some rows =>
          some (some (mkSkillTable rows))) = _
  rw [hrows]

/-- An empty `skills_matrix` with a non-empty `skills` list of strings
renders up to ten synthesized rows with empty years/last-used/proficiency. -/
theorem skillMatrix_synth_rows (kvs : List (List Char × Jv)) (names : List (List Char))
    (hm : dGetD kvs "skills_matrix".data (Jv.arr []) = Jv.arr [])
    (hs : dGetD kvs "skills".data Jv.null = Jv.arr (names.map Jv.str))
    (hne : names ≠ []) :
    buildSkillMatrix (Jv.obj kvs)
      = some (some (mkSkillTable ((names.take 10).map (fun a => ⟨a, [], [], []⟩)))) := by
  have htr : pyTruthy (Jv.arr (names.map Jv.str)) = true := by
    cases names with
    | nil => exact absurd rfl hne
    | cons a l => rfl
  have hmap10 : (names.map Jv.str).take 10 = (names.take 10).map Jv.str := by
    rw [List.map_take]
  have hsrc : skillMatrixSrc kvs
      = some (Jv.arr (((names.take 10).map Jv.str).map (fun sk =>
          Jv.obj [("skills".data, sk), ("years_experience".data, Jv.str []),
                  ("last_used".data, Jv.str []), ("proficiency".data, Jv.str [])]))) := by
    unfold skillMatrixSrc
    rw [hm, hs, if_pos (by refine ⟨by simp [pyTruthy], ?_⟩; simp [pyTruthy]; exact hne)]
    show (match (pySliceTake 10 (Jv.arr (names.map Jv.str))).bind pyIter with
      | none => none
      | some els =>
        some (Jv.arr (els.map (fun sk =>
          Jv.obj [("skills".data, sk), ("years_experience".data, Jv.str []),
                  ("last_used".data, Jv.str []), ("proficiency".data, Jv.str [])])))) = _
    show (match some ((names.map Jv.str).take 10) with
      | none => none
      | some els =>
        some (Jv.arr (els.map (fun sk =>
          Jv.obj [("skills".data, sk), ("years_experience".data, Jv.str []),
                  ("last_used".data, Jv.str []), ("proficiency".data, Jv.str [])])))) = _
    rw [hmap10]
  set entries := ((names.take 10).map Jv.str).map (fun sk =>
      Jv.obj [("skills".data, sk), ("years_experience".data, Jv.str []),
              ("last_used".data, Jv.str []), ("proficiency".data, Jv.str [])]) with hentries
  have hene : entries ≠ [] := by
    rw [hentries]
    have := take10_ne_nil hne
    cases h10 : names.take 10 with
    | nil => exact absurd h10 this
    | cons a l => simp
  have hetr : pyTruthy (Jv.arr entries) = true := by
    cases he : entries with
    | nil => exact absurd he hene
    | cons a l => rfl
  have hlen : entries.length ≤ 10 := by
    rw [hentries]
    simp only [List.length_map, List.length_take]
    omega
  have htake : entries.take 10 = entries := List.take_of_length_le hlen
  show buildSkillMatrixKvs kvs = _
  unfold buildSkillMatrixKvs
  rw [hsrc]
  show (if ¬ pyTruthy (Jv.arr entries) = true then some none
    else
      match pySliceTake 10 (Jv.arr entries) with
      | none => none
      | some sm3 =>
        match pyIter sm3 with
        | none => none
        | some entries2 =>
          match mapMo entryRow entries2 with
          | none => none
          | some rows =>
            some (some (mkSkillTable rows))) = _
  rw [if_neg (by simp [hetr])]
  show (match mapMo entryRow (entries.take 10) with
        | none => none
        | some rows =>
          some (some (mkSkillTable rows))) = _
  rw [htake, hentries, mapMo_entryRow_synth]

/-- With both `skills_matrix` and `skills` falsy, no table is added. -/
theorem skillMatrix_no_table (kvs : List (List Char × Jv))
    (hm : dGetD kvs "skills_matrix".data (Jv.arr []) = Jv.arr [])
    (hs : pyTruthy (dGetD kvs "skills".data Jv.null) = false) :
    buildSkillMatrix (Jv.obj kvs) = some none := by
  have hsrc : skillMatrixSrc kvs = some (Jv.arr []) := by
    unfold skillMatrixSrc
    rw [hm, if_neg (by simp [hs])]
  show buildSkillMatrixKvs kvs = _
  unfold buildSkillMatrixKvs
  rw [hsrc]
  rfl

/-- Every rendered skill-matrix table carries the fixed header row: the four
labels of line 298, the purple fill of line 304 and white font of line 303. -/
theorem skillTable_fixed_header (pd : Jv) (t : SkillTable)
    (h : buildSkillMatrix pd = some (some t)) :
    t.headers = skillHeaders ∧ t.headerFill = skillHeaderFill
      ∧ t.headerFontColor = (255, 255, 255) := by
  cases pd with
  | obj kvs =>
    rw [show buildSkillMatrix (Jv.obj kvs) = buildSkillMatrixKvs kvs from rfl] at h
    unfold buildSkillMatrixKvs at h
    split at h
    · exact absurd h (by simp)
    · split at h
      · simp at h
      · split at h
        · exact absurd h (by simp)
        · split at h
          · exact absurd h (by simp)
          · split at h
            · exact absurd h (by simp)
            · rename_i rows hmm
              have ht : mkSkillTable rows = t := by
                injection h with h2
                injection h2
              subst ht
              exact ⟨rfl, rfl, rfl⟩
  | null => exact absurd h (by simp [buildSkillMatrix])
  | bool b => exact absurd h (by simp [buildSkillMatrix])
  | num tk => exact absurd h (by simp [buildSkillMatrix])
  | str s => exact absurd h (by simp [buildSkillMatrix])
  | arr xs => exact absurd h (by simp [buildSkillMatrix])

/-- A truthy `experience` list renders one block per entry, in order. -/
theorem experienceSec_eq (kvs : List (List Char × Jv)) (es : List Jv)
    (blocks : List ExpBlock)
    (hv : dGetD kvs "experience".data Jv.null = Jv.arr es) (hne : es ≠ [])
    (hbl : mapMo expBlock es = some blocks) :
    experienceSec kvs = some (some blocks) := by
  have htr : pyTruthy (Jv.arr es) = true := by
    cases es with
    | nil => exact absurd rfl hne
    | cons a l => rfl
  unfold experienceSec
  rw [hv, if_pos htr]
  show (match mapMo expBlock es with
    | none => none
    | some bs => some (some bs)) = _
  rw [hbl]

/-- An experience entry with string fields and a string-list `Description`
renders the bold dash-and-parentheses header and one bullet per point. -/
theorem expBlock_eq (ekvs : List (List Char × Jv)) (jt co sd ed : List Char)
    (ds : List (List Char))
    (h1 : dGetD ekvs "job_title".data (Jv.str []) = Jv.str jt)
    (h2 : dGetD ekvs "company".data (Jv.str []) = Jv.str co)
    (h3 : dGetD ekvs "start_date".data (Jv.str []) = Jv.str sd)
    (h4 : dGetD ekvs "end_date".data (Jv.str []) = Jv.str ed)
    (h5 : dGetD ekvs "Description".data (Jv.arr []) = Jv.arr (ds.map Jv.str)) :
    expBlock (Jv.obj ekvs)
      = some ⟨jt ++ " - ".data ++ co ++ " (".data ++ sd ++ " - ".data ++ ed ++ ")".data,
              true, ds⟩ := by
  show expBlockKvs ekvs = _
  unfold expBlockKvs
  rw [h1, h2, h3, h4, h5]
  show (mapMo (fun d =>
      match d with
      | Jv.str s => some s
      | _ => none) (ds.map Jv.str)).bind (fun bs =>
        some (ExpBlock.mk
          (jt ++ " - ".data ++ co ++ " (".data ++ sd ++ " - ".data ++ ed ++ ")".data)
          true bs)) = _
  rw [mapMo_str_elems]
  rfl

-- ==========================================================================
-- Concrete fixtures used by witnesses and counterexamples
-- ==========================================================================

-- ==========================================================================
-- Concrete fixtures used by witnesses and counterexamples
-- ==========================================================================

/-- A service response that is well-formed JSON but omits most schema fields. -/
def respName : List Char := "\x7b\"name\": \"A\"\x7d".data

/-- The dict `json.loads` produces for `respName`. -/
def recNameKvs : List (List Char × Jv) := [("name".data, Jv.str ['A'])]

/-- A service response that is not valid JSON at all. -/
def respBad : List Char := "not json".data

/-- Fifteen `skills_matrix` entries named by the letters A through O. -/
def skills15 : List Jv :=
  (List.range 15).map (fun i => Jv.obj [("skills".data, Jv.str [Char.ofNat (65 + i)])])

/-- A record whose `skills_matrix` has fifteen entries. -/
def rec15kvs : List (List Char × Jv) := [("skills_matrix".data, Jv.arr skills15)]

/-- The ten table rows expected for `rec15kvs`: entries A through J. -/
def rows10 : List SkillRow :=
  (List.range 10).map (fun i => ⟨[Char.ofNat (65 + i)], [], [], []⟩)

/-- A record with only a one-element `skills` list. -/
def recSkillskvs : List (List Char × Jv) := [("skills".data, Jv.arr [Jv.str ['A']])]

/-- One experience entry with two description points. -/
def expEntryKvs : List (List Char × Jv) :=
  [("job_title".data, Jv.str "Dev".data), ("company".data, Jv.str "Acme".data),
   ("start_date".data, Jv.str "2020".data), ("end_date".data, Jv.str "2021".data),
   ("Description".data, Jv.arr [Jv.str "a".data, Jv.str "b".data])]

/-- A record with one experience entry. -/
def expSecKvs : List (List Char × Jv) := [("experience".data, Jv.arr [Jv.obj expEntryKvs])]

-- ==========================================================================
-- The claims
-- ==========================================================================

/-- C1, counterexample: the service response `\x7b"name": "A"\x7d` is
well-formed JSON matching the schema, yet the record `parse_content` returns
lacks the declared field `email` — omitted fields are not filled with
defaults, contradicting the claim that every declared field is present. -/
theorem c1_field_absent_counterexample :
    jsonLoads (cleanup respName) = some (Jv.obj recNameKvs)
    ∧ parse_content respName true = Jv.obj recNameKvs
    ∧ "email".data ∈ declaredFields
    ∧ dictGet recNameKvs "email".data = none :=
  ⟨rfl, rfl, by decide, rfl⟩

/-- C1, amended: the Mapper returns the parsed JSON value as-is (when the
debug write succeeds); fields the response omits remain absent from the
record, and defaults are supplied only at lookup time by the renderer's
`dict.get` calls. -/
theorem c1_mapper_returns_parsed_json (r : List Char) (j : Jv)
    (h : jsonLoads (cleanup r) = some j) : parse_content r true = j := by
  unfold parse_content
  rw [h]
  rfl

/-- C1, witness for the amended theorem at the concrete response. -/
theorem c1_mapper_returns_parsed_json_witness :
    jsonLoads (cleanup respName) = some (Jv.obj recNameKvs)
    ∧ parse_content respName true = Jv.obj recNameKvs :=
  ⟨rfl, c1_mapper_returns_parsed_json respName (Jv.obj recNameKvs) rfl⟩

/-- C2: for a malformed service response the Mapper degrades to the empty
record `\x7b\x7d`, but `__main__` then evaluates `parsed_data['name']`, which
raises `KeyError` on the empty record, so the script aborts before
`create_formatted_docx` runs — the pipeline does not proceed to rendering as
the claim (and the code's own graceful-degradation handler) intends. -/
theorem c2_malformed_response_aborts_before_rendering :
    parse_content respBad true = Jv.obj []
    ∧ mainTail (Jv.obj []) = none :=
  ⟨rfl, rfl⟩

/-- C3, counterexample: for a successfully parsed response, a failing
debug-artifact write changes the Mapper's returned record — with the write
failing, `parse_content` returns `\x7b\x7d` instead of the parsed record,
because the write sits inside the same `try` whose `except Exception` handler
returns `\x7b\x7d`. -/
theorem c3_write_failure_changes_record :
    parse_content respName true = Jv.obj recNameKvs
    ∧ parse_content respName false = Jv.obj []
    ∧ Jv.obj ([] : List (List Char × Jv)) ≠ Jv.obj recNameKvs :=
  ⟨rfl, rfl, by simp [recNameKvs]⟩

/-- C3, amended: a failure writing the debug artifact is suppressed (the
Mapper does not raise), but the Mapper then returns the empty record
`\x7b\x7d` for every response, rather than the parsed record. -/
theorem c3_write_failure_yields_empty_record (r : List Char) :
    parse_content r false = Jv.obj [] := by
  unfold parse_content
  cases jsonLoads (cleanup r) <;> simp

/-- C3, witness for the amended theorem at the concrete response. -/
theorem c3_write_failure_yields_empty_record_witness :
    parse_content respName false = Jv.obj [] :=
  c3_write_failure_yields_empty_record respName

/-- C4, counterexample: on a non-JSON response `parse_content` returns the
empty dict `\x7b\x7d`, which is not equal to the record that has every
declared field present at its default — the two are different mappings. -/
theorem c4_empty_dict_not_all_defaults :
    parse_content respBad true = Jv.obj []
    ∧ jsonLoads (cleanup respBad) = none
    ∧ Jv.obj [] ≠ specAllDefaultsRecord :=
  ⟨rfl, rfl, by simp [specAllDefaultsRecord]⟩

/-- C4, amended: for every service response that is not valid JSON,
`parse_content` does not raise and returns the empty object `\x7b\x7d` (no
keys; every defaulted lookup on it yields the default, but it is not the
record with all fields materialized). -/
theorem c4_invalid_json_empty_record (r : List Char) (writeOk : Bool)
    (h : jsonLoads (cleanup r) = none) : parse_content r writeOk = Jv.obj [] := by
  unfold parse_content
  rw [h]

/-- C4, witness for the amended theorem at the concrete response. -/
theorem c4_invalid_json_empty_record_witness :
    jsonLoads (cleanup respBad) = none
    ∧ parse_content respBad true = Jv.obj [] :=
  ⟨rfl, c4_invalid_json_empty_record respBad true rfl⟩

/-- C5: wrapping any service response in fenced code-block markers (the
tickJson opener and the three-backtick closer) does not change the record the
Mapper produces: the cleanup strips the wrapper, and the stripped wrapped
response parses to the same record as the unwrapped response.  Proved for
every response string, which covers every valid JSON payload. -/
theorem c5_fenced_block_wrapping_invariant (s : List Char) (writeOk : Bool) :
    parse_content (tickJson ++ s ++ ticks3) writeOk = parse_content s writeOk := by
  unfold parse_content
  rw [cleanup_wrapped]

/-- C5, witness at a concrete JSON payload. -/
theorem c5_fenced_block_wrapping_invariant_witness :
    parse_content (tickJson ++ respName ++ ticks3) true = parse_content respName true :=
  c5_fenced_block_wrapping_invariant respName true

/-- C6: the rendered skill-matrix table body equals the first ten entries of
`skills_matrix` in original order when it is non-empty (entries beyond ten
silently dropped); otherwise, when `skills` is non-empty, up to ten rows
synthesized from `skills` with empty years/last-used/proficiency columns;
otherwise no rows (no table is added under the always-rendered heading). -/
theorem c6_skill_matrix_body :
    (∀ (kvs : List (List Char × Jv)) (m : List Jv) (rows : List SkillRow),
      dGetD kvs "skills_matrix".data (Jv.arr []) = Jv.arr m → m ≠ [] →
      mapMo entryRow (m.take 10) = some rows →
      buildSkillMatrix (Jv.obj kvs) = some (some (mkSkillTable rows))
      ∧ rows.length = (m.take 10).length)
    ∧ (∀ (kvs : List (List Char × Jv)) (names : List (List Char)),
      dGetD kvs "skills_matrix".data (Jv.arr []) = Jv.arr [] →
      dGetD kvs "skills".data Jv.null = Jv.arr (names.map Jv.str) → names ≠ [] →
      buildSkillMatrix (Jv.obj kvs)
        = some (some (mkSkillTable ((names.take 10).map (fun a => ⟨a, [], [], []⟩)))))
    ∧ (∀ kvs : List (List Char × Jv),
      dGetD kvs "skills_matrix".data (Jv.arr []) = Jv.arr [] →
      pyTruthy (dGetD kvs "skills".data Jv.null) = false →
      buildSkillMatrix (Jv.obj kvs) = some none) :=
  ⟨fun kvs m rows hm hne hrows =>
    ⟨skillMatrix_direct_rows kvs m rows hm hne hrows, mapMo_length _ _ _ hrows⟩,
   skillMatrix_synth_rows, skillMatrix_no_table⟩

/-- C6, witness: for fifteen `skills_matrix` entries the table has exactly
ten data rows, the first ten in original order. -/
theorem c6_skill_matrix_body_witness :
    mapMo entryRow (skills15.take 10) = some rows10
    ∧ buildSkillMatrix (Jv.obj rec15kvs) = some (some (mkSkillTable rows10))
    ∧ rows10.length = 10
    ∧ skills15.length = 15 := by
  have hne : skills15 ≠ [] := by
    intro hx
    have := congrArg List.length hx
    simp [skills15] at this
  have h := c6_skill_matrix_body.1 rec15kvs skills15 rows10 rfl hne (by decide)
  exact ⟨by decide, h.1, by decide, by decide⟩

/-- C7, counterexample: a rendered table's header labels are
`Area, Years, Latest 3 Clients Used, Level` (line 298), not the claimed
`Area, Years, Latest Clients Used, Level`. -/
theorem c7_header_label_counterexample :
    buildSkillMatrix (Jv.obj recSkillskvs) = some (some (mkSkillTable [⟨['A'], [], [], []⟩]))
    ∧ (mkSkillTable [⟨['A'], [], [], []⟩]).headers
        = ["Area".data, "Years".data, "Latest 3 Clients Used".data, "Level".data]
    ∧ skillHeaders ≠ ["Area".data, "Years".data, "Latest Clients Used".data, "Level".data] :=
  ⟨rfl, rfl, by decide⟩

/-- C7, amended: every rendered skill-matrix table has the fixed header row
with exactly the four labels `Area`, `Years`, `Latest 3 Clients Used`,
`Level`, the distinct `5A2A82` background fill, and white (255,255,255)
header text. -/
theorem c7_fixed_header_row (pd : Jv) (t : SkillTable)
    (h : buildSkillMatrix pd = some (some t)) :
    t.headers = ["Area".data, "Years".data, "Latest 3 Clients Used".data, "Level".data]
    ∧ t.headerFill = "5A2A82".data
    ∧ t.headerFontColor = (255, 255, 255) :=
  skillTable_fixed_header pd t h

/-- C7, witness for the amended theorem at a concrete record. -/
theorem c7_fixed_header_row_witness :
    buildSkillMatrix (Jv.obj recSkillskvs) = some (some (mkSkillTable [⟨['A'], [], [], []⟩]))
    ∧ (mkSkillTable [⟨['A'], [], [], []⟩]).headers
        = ["Area".data, "Years".data, "Latest 3 Clients Used".data, "Level".data] :=
  ⟨rfl, (c7_fixed_header_row (Jv.obj recSkillskvs) (mkSkillTable [⟨['A'], [], [], []⟩]) rfl).1⟩

/-- C9: for a record with a non-empty experience list, the renderer emits
one block per entry in order, each a bold header line
`job_title - company (start_date - end_date)` followed by exactly one bullet
per `Description` point, in the original order of the sequence. -/
theorem c9_experience_blocks :
    (∀ (kvs : List (List Char × Jv)) (es : List Jv) (blocks : List ExpBlock),
      dGetD kvs "experience".data Jv.null = Jv.arr es → es ≠ [] →
      mapMo expBlock es = some blocks →
      experienceSec kvs = some (some blocks) ∧ blocks.length = es.length)
    ∧ (∀ (ekvs : List (List Char × Jv)) (jt co sd ed : List Char) (ds : List (List Char)),
      dGetD ekvs "job_title".data (Jv.str []) = Jv.str jt →
      dGetD ekvs "company".data (Jv.str []) = Jv.str co →
      dGetD ekvs "start_date".data (Jv.str []) = Jv.str sd →
      dGetD ekvs "end_date".data (Jv.str []) = Jv.str ed →
      dGetD ekvs "Description".data (Jv.arr []) = Jv.arr (ds.map Jv.str) →
      expBlock (Jv.obj ekvs)
        = some ⟨jt ++ " - ".data ++ co ++ " (".data ++ sd ++ " - ".data ++ ed ++ ")".data,
                true, ds⟩) :=
  ⟨fun kvs es blocks hv hne hbl =>
    ⟨experienceSec_eq kvs es blocks hv hne hbl, mapMo_length _ _ _ hbl⟩,
   expBlock_eq⟩

/-- C9, witness at a concrete one-entry record. -/
theorem c9_experience_blocks_witness :
    expBlock (Jv.obj expEntryKvs)
      = some ⟨"Dev - Acme (2020 - 2021)".data, true, ["a".data, "b".data]⟩
    ∧ experienceSec expSecKvs
      = some (some [⟨"Dev - Acme (2020 - 2021)".data, true, ["a".data, "b".data]⟩]) := by
  constructor
  · exact c9_experience_blocks.2 expEntryKvs "Dev".data "Acme".data "2020".data "2021".data
      ["a".data, "b".data] rfl rfl rfl rfl rfl
  · exact (c9_experience_blocks.1 expSecKvs [Jv.obj expEntryKvs]
      [⟨"Dev - Acme (2020 - 2021)".data, true, ["a".data, "b".data]⟩]
      rfl (by simp) rfl).1

/-- C10: for a record without a `name` key the renderer does not render an
empty header: the centered candidate-name line is the fallback text
`Name Not Found`, both at the name formatter and in the full rendered
document. -/
theorem c10_missing_name_fallback :
    (∀ kvs : List (List Char × Jv), dictGet kvs "name".data = none →
      formattedName (Jv.obj kvs) = some nameNotFound)
    ∧ (∀ (kvs : List (List Char × Jv)) (logoExists : Bool) (doc : RDoc),
        dictGet kvs "name".data = none →
        create_formatted_docx (Jv.obj kvs) logoExists = some doc →
        doc.name = nameNotFound) := by
  constructor
  · exact formattedName_no_name
  · intro kvs logo doc h hc
    have h1 : formattedNameKvs kvs = some nameNotFound := formattedName_no_name kvs h
    rw [show create_formatted_docx (Jv.obj kvs) logo = createDocxKvs kvs logo from rfl] at hc
    unfold createDocxKvs at hc
    rw [h1] at hc
    rcases hcl : contactLines kvs with _ | cl <;> rw [hcl] at hc
    · exact absurd hc (by simp)
    · rcases hsu : summarySec kvs with _ | su <;> rw [hsu] at hc
      · exact absurd hc (by simp)
      · rcases hsk : buildSkillMatrixKvs kvs with _ | sk <;> rw [hsk] at hc
        · exact absurd hc (by simp)
        · rcases hce : certSec kvs with _ | ce <;> rw [hce] at hc
          · exact absurd hc (by simp)
          · rcases hed : eduSec kvs with _ | ed <;> rw [hed] at hc
            · exact absurd hc (by simp)
            · rcases hex : experienceSec kvs with _ | ex <;> rw [hex] at hc
              · exact absurd hc (by simp)
              · rcases hpj : projectsSec kvs with _ | pj <;> rw [hpj] at hc
                · exact absurd hc (by simp)
                · have hc' : some (RDoc.mk logo nameNotFound cl su sk ce ed ex pj)
                      = some doc := hc
                  injection hc' with hd
                  rw [← hd]

/-- C10, witness at the empty record. -/
theorem c10_missing_name_fallback_witness :
    formattedName (Jv.obj ([] : List (List Char × Jv))) = some nameNotFound
    ∧ (RDoc.mk false nameNotFound [] none none none none none none).name = nameNotFound :=
  ⟨c10_missing_name_fallback.1 [] rfl,
   c10_missing_name_fallback.2 [] false (RDoc.mk false nameNotFound [] none none none none none none) rfl rfl⟩

/-- C8: the rendered header capitalizes the first letter of every word of
the candidate name regardless of input casing (capwords is invariant under
upper/lower-casing the input, and the rendered words are exactly the
capitalized input words), and the output filename stem is derived by
capitalizing the name and replacing every run of non-alphanumeric characters
with a single underscore (output characters are alphanumeric or underscore,
no two adjacent underscores, alphanumerics preserved in order); in
particular, input name `john q. public` renders as `John Q. Public` and
sanitizes to `John_Q_Public`. -/
theorem c8_name_formatting_and_filename :
    formattedName (Jv.obj [("name".data, Jv.str "john q. public".data)])
        = some "John Q. Public".data
    ∧ mainTail (Jv.obj [("name".data, Jv.str "john q. public".data)])
        = some "John_Q_Public".data
    ∧ safeName "john q. public".data = "John_Q_Public".data
    ∧ (∀ s : List Char, capwords (s.map Char.toUpper) = capwords s)
    ∧ (∀ s : List Char, capwords (s.map Char.toLower) = capwords s)
    ∧ (∀ s : List Char, splitWsPy (capwords s) = (splitWsPy s).map pyCapitalize)
    ∧ (∀ s : List Char, (subNonAlnum s).all (fun c => isAlnumAscii c || c = '_') = true)
    ∧ (∀ s : List Char, List.Chain' (fun x y => ¬(x = '_' ∧ y = '_')) (subNonAlnum s))
    ∧ (∀ s : List Char, (subNonAlnum s).filter isAlnumAscii = s.filter isAlnumAscii) :=
  ⟨rfl, rfl, rfl, capwords_map_toUpper, capwords_map_toLower, splitWs_capwords,
   fun s => sanAux_all s false, fun s => sanAux_chain s false, fun s => sanAux_filter s false⟩

/-- C8, witness instances of the universally quantified parts. -/
theorem c8_name_formatting_and_filename_witness :
    capwords ("JOHN Q. PUBLIC".data.map Char.toLower) = capwords "JOHN Q. PUBLIC".data
    ∧ splitWsPy (capwords "john q. public".data)
        = (splitWsPy "john q. public".data).map pyCapitalize :=
  ⟨c8_name_formatting_and_filename.2.2.2.2.1 "JOHN Q. PUBLIC".data,
   c8_name_formatting_and_filename.2.2.2.2.2.1 "john q. public".data⟩
